import Mathlib

/-!
Verification of the ReportCopillot report-generation core.

This file gives a shallow embedding, in Lean 4, of the text-processing and
orchestration core of the repository (src/utils/sections.py,
src/utils/quality_gate.py, src/utils/section_validator.py,
src/agents/data_agent.py, src/schemas.py, the agent wrappers and
src/orchestrator.py) and proves properties of that embedding.

Modelling conventions:
- Python strings are modelled as `List Char` (`Str`).  Whitespace and
  line-break classification is modelled on the character set the program
  actually manipulates (ASCII text plus the unicode line separators that
  Python `str.splitlines` recognises); Python's full unicode whitespace
  tables are not reproduced beyond that.
- Python dicts that the code only reads through `.get` are modelled as
  association lists (first binding wins, insertion order preserved), and
  statically-shaped payload/config dicts as structures with the `.get`
  defaults as field defaults.
- Fallible code paths are explicit: `split_by_headers` raises `KeyError`
  in CPython when a recognised (stripped) header name is not literally a
  key of its output dict, which can happen only when a supplied header is
  not equal to its own trim; the embedding returns `Except Str α` whose
  error value carries the offending key.
- The numeric column statistics of the data agent are modelled over `ℚ`
  (pandas uses IEEE floats; missing values are modelled as `none`, so the
  NaN propagation through `dropna` is explicit).
-/

namespace RC

/-- Python strings, modelled as lists of characters. -/
abbrev Str := List Char

/-- The characters of a Lean string literal, used to write concrete inputs. -/
def chars (s : String) : Str := s.data

/-- An ASCII single quote, built from its code so it can appear inside
generated message strings. -/
def sq : Char := Char.ofNat 39

/-- Whitespace as recognised by Python `str.strip` / `str.split` on the
ASCII range: space, tab, newline, carriage return, vertical tab, form feed. -/
def isSpace (c : Char) : Bool :=
  c = ' ' || c = '\t' || c = '\n' || c = '\x0d' || c = '\x0b' || c = '\x0c'

/-- Line-break characters recognised by Python `str.splitlines`:
newline, carriage return, vertical tab, form feed, the ASCII separators
FS/GS/RS, NEL, and the unicode line/paragraph separators. -/
def isBreak (c : Char) : Bool :=
  c = '\n' || c = '\x0d' || c = '\x0b' || c = '\x0c' ||
  c = '\x1c' || c = '\x1d' || c = '\x1e' || c = '\x85' ||
  c = ' ' || c = ' '

/-- Remove leading whitespace (Python `str.lstrip`). -/
def lstrip : Str → Str
  | [] => []
  | c :: cs => if isSpace c then lstrip cs else c :: cs

/-- Remove trailing whitespace (Python `str.rstrip`). -/
def rstrip (s : Str) : Str := (lstrip s.reverse).reverse

/-- Remove leading and trailing whitespace (Python `str.strip`). -/
def strip (s : Str) : Str := lstrip (rstrip s)

/-- Worker for `splitlines`; `acc` holds the current (reversed) line.  A
final unterminated line is emitted only if non-empty, matching Python. -/
def splitlinesAux : Str → Str → List Str
  | [], acc => if acc.isEmpty then [] else [acc.reverse]
  | '\x0d' :: '\n' :: rest, acc => acc.reverse :: splitlinesAux rest []
  | c :: rest, acc =>
    if isBreak c then acc.reverse :: splitlinesAux rest []
    else splitlinesAux rest (c :: acc)

/-- Python `str.splitlines`: split at line-break characters, treating
`"\r\n"` as a single break and dropping a trailing empty segment. -/
def splitlines (s : Str) : List Str := splitlinesAux s []

/-- Split at `'\n'` only, with Python `splitlines`-style trailing-segment
handling.  Agrees with `splitlines` on strings whose only break character
is `'\n'` (`splitlines_eq_splitNl`). -/
def splitNlAux : Str → Str → List Str
  | [], acc => if acc.isEmpty then [] else [acc.reverse]
  | c :: rest, acc =>
    if c = '\n' then acc.reverse :: splitNlAux rest []
    else splitNlAux rest (c :: acc)

/-- Split at `'\n'` only, trailing empty segment dropped. -/
def splitNl (s : Str) : List Str := splitNlAux s []

/-- Strings whose only line-break character is the newline. -/
def nlOnly (s : Str) : Prop := ∀ c ∈ s, isBreak c = true → c = '\n'

deriving instance DecidableEq for Except

/-! ### utils/sections.py -/

/-- The key list of a Python dict comprehension `{h: [] for h in headers}`:
insertion order with duplicates dropped after their first occurrence. -/
def pyKeysAux : List Str → List Str → List Str
  | [], _ => []
  | h :: t, seen => if h ∈ seen then pyKeysAux t seen else h :: pyKeysAux t (h :: seen)

/-- First-occurrence key order of `{h: [] for h in headers}`. -/
def pyKeys (hs : List Str) : List Str := pyKeysAux hs []

/-- Python `s.endswith(":")`. -/
def endsColon (s : Str) : Bool :=
  match s.getLast? with
  | some c => c = ':'
  | none => false

/-- The header-line test of `split_by_headers`: a line whose trim ends with
a colon and whose pre-colon part, trimmed again, is one of the stripped
header names opens that section; the recognised (stripped) name is
returned.  Mirrors lines 18-26 of src/utils/sections.py. -/
def recognize (headerSet : List Str) (ln : Str) : Option Str :=
  let stripped := strip ln
  if endsColon stripped then
    let nm := strip stripped.dropLast
    if nm ∈ headerSet then some nm else none
  else none

/-- Loop state of `split_by_headers`: the current section name and the
accumulated raw lines per output key (`out_lines`). -/
structure SBHSt where
  current : Option Str
  acc : Str → List Str

/-- One line of the `split_by_headers` loop.  When a line must be appended
under a recognised name that is not literally a key of `out_lines` (possible
only when a supplied header differs from its own trim), CPython raises
`KeyError`; this is the `.error` case, carrying the offending key. -/
def sbhStep (headerSet keys : List Str) (st : SBHSt) (ln : Str) : Except Str SBHSt :=
  match recognize headerSet ln with
  | some nm => .ok ⟨some nm, st.acc⟩
  | none =>
    match st.current with
    | none => .ok st
    | some c =>
      if c ∈ keys then
        .ok ⟨some c, fun k => if k = c then st.acc k ++ [ln] else st.acc k⟩
      else .error c

/-- src/utils/sections.py `split_by_headers`: split a report into sections
keyed by header name (without the colon), recognising only headers from the
provided list in the plain-text form `Header:`. -/
def split_by_headers (reportText : Str) (headers : List Str) :
    Except Str (List (Str × Str)) := do
  let lines := splitlines reportText
  let headerSet := headers.map strip
  let keys := pyKeys headers
  let st ← lines.foldlM (sbhStep headerSet keys) ⟨none, fun _ => []⟩
  return keys.map fun k => (k, strip (List.intercalate ['\n'] (st.acc k)))

/-- Python `(sections.get(h) or "")`: dict lookup defaulting to the empty
string. -/
def lookupD (sections : List (Str × Str)) (k : Str) : Str :=
  match sections.find? (fun p => p.1 == k) with
  | some p => p.2
  | none => []

/-- src/utils/sections.py `join_sections`: emit each header with a colon,
its trimmed section body and a blank separator line, trimming the result. -/
def join_sections (sections : List (Str × Str)) (headers : List Str) : Str :=
  strip (List.intercalate ['\n']
    (headers.flatMap fun h => [h ++ [':'], strip (lookupD sections h), []]))

/-! ### utils/section_validator.py and utils/quality_gate.py -/

/-- ASCII lower-casing, modelling Python `str.lower` / `re.IGNORECASE` on
the ASCII text the program manipulates. -/
def lower (s : Str) : Str := s.map Char.toLower

/-- Match of `\s*:\s*$` against the tail of a line. -/
def colonTail (r : Str) : Bool :=
  match lstrip r with
  | ':' :: rest => rest.all isSpace
  | _ => false

/-- Match of the regex `(?im)^\s*{re.escape(h)}\s*:\s*$` against one line
(the multiline regex examines each chunk between newlines): some split of
the line into an all-whitespace prefix, the header matched case-insensitively,
and a `\s*:\s*` tail.  Headers are assumed newline-free (for a header
containing a newline the regex could match across line boundaries). -/
def headerLineHit (h line : Str) : Bool :=
  (List.range (line.length + 1)).any fun k =>
    (line.take k).all isSpace &&
      (lower ((line.drop k).take h.length) == lower h &&
        ((line.drop k).length ≥ h.length && colonTail ((line.drop k).drop h.length)))

/-- src/utils/section_validator.py `find_missing_headers`: the required
headers with no line of the form `Header:` (case-insensitive, surrounding
whitespace allowed) in the text. -/
def find_missing_headers (text : Str) (requiredHeaders : List Str) : List Str :=
  let lines := text.splitOn '\n'
  requiredHeaders.filter fun h => ! lines.any (headerLineHit h)

/-- One quality issue, a dict with keys `kind`, `section`, `detail`. -/
structure Issue where
  kind : Str
  sec : Str
  detail : Str
deriving DecidableEq

/-- The result dict of `evaluate_report_quality`. -/
structure QReport where
  ok : Bool
  issues : List Issue
  sections : List (Str × Str)
deriving DecidableEq

/-- The `quality` sub-dict of a template configuration, with the `.get`
defaults of src/utils/quality_gate.py as field defaults. -/
structure QualityCfg where
  minWords : List (Str × Int) := []
  requiredTermsBySection : List (Str × List Str) := []
  requiredGlobalTerms : List Str := []
deriving DecidableEq

/-- A template configuration (src/templates.py entry) restricted to the
keys the verified core reads, each with its `.get` default.
`includeFigures` keeps key absence visible because the orchestrator
defaults the missing key to `True`. -/
structure TemplateCfg where
  instructions : Str := []
  writerFormat : List Str := []
  includeReview : Bool := false
  includeFigures : Option Bool := none
  quality : QualityCfg := {}
  previewRows : Int := 10
deriving DecidableEq

/-- Decimal rendering of an integer, for the f-string fragments of issue
details. -/
def intChars (n : Int) : Str := (toString n).data

/-- Python substring membership `t in s`. -/
def isSubstr (t s : Str) : Bool :=
  (List.range (s.length + 1)).any fun k => t.isPrefixOf (s.drop k)

/-- Python `_word_count`: the number of `str.split()` words (the inner
`if w.strip()` filter never removes anything, since `split()` words are
nonempty and whitespace-free). -/
def splitWsAux : Str → Str → List Str
  | [], acc => if acc.isEmpty then [] else [acc.reverse]
  | c :: rest, acc =>
    if isSpace c then
      if acc.isEmpty then splitWsAux rest [] else acc.reverse :: splitWsAux rest []
    else splitWsAux rest (c :: acc)

/-- Python `str.split()` with no separator: whitespace-delimited words. -/
def splitWs (s : Str) : List Str := splitWsAux s []

/-- src/utils/quality_gate.py `_word_count`. -/
def wordCount (s : Str) : Nat := (splitWs s).length

/-- The ordered issue list built by `evaluate_report_quality` from the
already-split sections: missing headers, then short sections, then missing
per-section terms, then missing global terms. -/
def qualityIssues (reportText : Str) (templateCfg : TemplateCfg)
    (sections : List (Str × Str)) : List Issue :=
  let qualityCfg := templateCfg.quality
  let requiredHeaders := templateCfg.writerFormat
  let missingIssues :=
    (if requiredHeaders.isEmpty then [] else find_missing_headers reportText requiredHeaders).map
      fun h => Issue.mk (chars "missing_header") h (chars "Missing required header: " ++ h ++ [':'])
  let shortIssues := qualityCfg.minWords.filterMap fun p =>
    let body := strip (lookupD sections p.1)
    if body ≠ [] ∧ (wordCount body : Int) < p.2 then
      some (Issue.mk (chars "too_short") p.1
        (chars "Section " ++ [sq] ++ p.1 ++ [sq] ++ chars " is too short (" ++
          intChars (wordCount body) ++ chars " words, expected >= " ++ intChars p.2 ++ chars ")."))
    else none
  let termIssues := qualityCfg.requiredTermsBySection.filterMap fun p =>
    let body := lower (lookupD sections p.1)
    if body = [] then none
    else
      let terms := p.2.map lower
      if terms ≠ [] ∧ ¬ terms.any (fun t => isSubstr t body) then
        some (Issue.mk (chars "missing_term") p.1
          (chars "Section " ++ [sq] ++ p.1 ++ [sq] ++ chars " should mention at least one of: " ++
            List.intercalate (chars ", ") terms ++ chars "."))
      else none
  let globalIssues := (qualityCfg.requiredGlobalTerms.map lower).filterMap fun t =>
    if ¬ isSubstr t (lower reportText) then
      some (Issue.mk (chars "missing_global_term") (chars "*") (chars "Report should mention: " ++ t))
    else none
  missingIssues ++ shortIssues ++ termIssues ++ globalIssues

/-- src/utils/quality_gate.py `evaluate_report_quality`.  The `Except`
layer propagates the `KeyError` that `split_by_headers` can raise for
headers differing from their own trim; on every template of
src/templates.py the result is `.ok`. -/
def evaluate_report_quality (reportText : Str) (templateCfg : TemplateCfg) :
    Except Str QReport := do
  let sections ←
    if templateCfg.writerFormat.isEmpty then pure []
    else split_by_headers reportText templateCfg.writerFormat
  let issues := qualityIssues reportText templateCfg sections
  return ⟨issues.isEmpty, issues, sections⟩

/-- src/utils/quality_gate.py `build_quality_fix_prompt`: an instruction
block carrying at most the first 12 issues. -/
def build_quality_fix_prompt (issues : List Issue) (templateCfg : TemplateCfg) : Str :=
  let required := templateCfg.writerFormat
  let requiredList :=
    if required.isEmpty then chars "(template-defined headers)"
    else List.intercalate (chars ", ") (required.map fun h => h ++ [':'])
  let bullets := List.intercalate ['\n'] ((issues.take 12).map fun i => chars "- " ++ i.detail)
  chars "IMPORTANT QUALITY FIX PASS:\n" ++
  chars "- Revise and return the FULL report.\n" ++
  chars "- Keep and preserve exact required headers: " ++ requiredList ++ ['\n'] ++
  chars "- Do not invent facts or measurements.\n" ++
  chars "- Improve only the sections needed to resolve these quality issues:\n" ++
  bullets ++ ['\n']

/-! ### src/schemas.py -/

/-- Stand-in for the loosely-typed JSON-like dicts that flow through agent
payloads without being inspected structurally by the verified core
(research facts, data summary, data highlights).  The orchestrator only
tests them for emptiness and passes them along. -/
abbrev Obj := List (Str × List Str)

/-- The payload dict of an `AgentResult`, as a structure whose fields carry
the `.get` defaults used by the readers (missing key reads as empty). -/
structure Payload where
  theoryText : Str := []
  researchFacts : Obj := []
  dataSummary : Obj := []
  dataHighlights : Obj := []
  reportText : Str := []
  sections : List (Str × Str) := []
  reviewText : Str := []
  figuresText : Str := []
deriving DecidableEq

/-- src/schemas.py `AgentError`. -/
structure AgentError where
  message : Str
  detail : Option Str := none
deriving DecidableEq

/-- src/schemas.py `AgentResult`. -/
structure AgentResult where
  ok : Bool
  agent : Str
  jobId : Str
  payload : Payload := {}
  warnings : List Str := []
  error : Option AgentError := none
deriving DecidableEq

/-- src/schemas.py `AgentResult.success`. -/
def AgentResult.success (agent jobId : Str) (payload : Payload) (warnings : List Str) :
    AgentResult :=
  { ok := true, agent := agent, jobId := jobId, payload := payload,
    warnings := warnings, error := none }

/-- src/schemas.py `AgentResult.fail`: `payload` is left at its default
(the empty dict). -/
def AgentResult.fail (agent jobId : Str) (message : Str) (detail : Option Str) :
    AgentResult :=
  { ok := false, agent := agent, jobId := jobId, payload := {}, warnings := [],
    error := some { message := message, detail := detail } }

/-- A caught Python exception: its class name and its message. -/
structure Exn where
  name : Str
  msg : Str

/-- The `f"{type(e).__name__}: {e}"` detail string of the agent wrappers. -/
def exnDetail (e : Exn) : Str := e.name ++ chars ": " ++ e.msg

/-- The context mapping threaded through the pipeline, as a structure
(fields the steps `.get` from the dict, with their read defaults). -/
structure Ctx where
  manualText : Str
  goal : Str
  csvPath : Option Str
  previewRows : Int
  extraInstructions : Str
  templateCfg : TemplateCfg
  theoryText : Str := []
  researchFacts : Obj := []
  dataSummary : Obj := []
  dataHighlights : Obj := []

/-! ### Agent wrappers

Each agent builds prompts, performs exactly one `chat` call against the
opaque generation backend, and post-processes the reply inside a
`try/except` that converts any exception into a failure `AgentResult`.
The backend call's outcome (reply text, or the exception the wrapper
catches) is the `chatResult` parameter. -/

/-- Python `str.lstrip("-")`. -/
def lstripDash : Str → Str
  | [] => []
  | c :: cs => if c = '-' then lstripDash cs else c :: cs

/-- src/agents/research_agent.py `_split_list`: split a block into trimmed
`;`-separated items, dropping empties and leading dashes. -/
def splitList (block : Str) : List Str :=
  (splitlines block).flatMap fun raw =>
    let s := strip (lstripDash (strip raw))
    if s = [] then []
    else (s.splitOn ';').filterMap fun p =>
      let q := strip p
      if q = [] then none else some q

/-- The six fact sections of src/agents/research_agent.py
`_extract_research_facts`, in dict insertion order. -/
def researchSections : List (Str × Str) :=
  [(chars "key_concepts", chars "Key Concepts:"),
   (chars "variables_units", chars "Variables & Units:"),
   (chars "equations_models", chars "Equations/Models:"),
   (chars "procedure_requirements", chars "Procedure Requirements:"),
   (chars "assumptions", chars "Assumptions (explicitly stated in manual):"),
   (chars "missing_info", chars "Missing Info / Clarifications Needed:")]

/-- src/agents/research_agent.py `_extract_research_facts`. -/
def extractResearchFacts (theoryText : Str) : Obj :=
  let found := (splitlines theoryText).foldl
    (fun (st : Option Str × (Str → Str)) line =>
      let stripped := strip line
      match researchSections.find? (fun p => lower stripped == lower p.2) with
      | some p => (some p.1, st.2)
      | none =>
        match st.1 with
        | none => st
        | some k => (some k, fun k2 => if k2 = k then st.2 k2 ++ line ++ ['\n'] else st.2 k2))
    (none, fun _ => [])
  researchSections.map fun p => (p.1, splitList (found.2 p.1))

/-- src/agents/research_agent.py `run`. -/
def research_run (chatResult : Except Exn Str) (jobId : Str) (_ctx : Ctx) : AgentResult :=
  match chatResult with
  | .error e => .fail (chars "research") jobId (chars "Research agent failed") (some (exnDetail e))
  | .ok theoryText =>
    .success (chars "research") jobId
      { theoryText := theoryText, researchFacts := extractResearchFacts theoryText } []

/-- src/agents/writer_agent.py `run`: on a successful chat call the reply
is split into sections over the template's `writer_format`; the `KeyError`
that `split_by_headers` can raise is caught by the wrapper's `except` and
becomes a failure result. -/
def writer_run (chatResult : Except Exn Str) (jobId : Str) (ctx : Ctx) : AgentResult :=
  let writerFormat := ctx.templateCfg.writerFormat
  match chatResult with
  | .error e => .fail (chars "writer") jobId (chars "Writer agent failed") (some (exnDetail e))
  | .ok reportText =>
    if writerFormat.isEmpty then
      .success (chars "writer") jobId { reportText := reportText, sections := [] } []
    else
      match split_by_headers reportText writerFormat with
      | .ok secs => .success (chars "writer") jobId { reportText := reportText, sections := secs } []
      | .error nm =>
        .fail (chars "writer") jobId (chars "Writer agent failed")
          (some (chars "KeyError: " ++ [sq] ++ nm ++ [sq]))

/-- src/agents/reviewer_agent.py `run`. -/
def reviewer_run (chatResult : Except Exn Str) (jobId : Str) (reportText : Str)
    (_templateCfg : TemplateCfg) : AgentResult :=
  if strip reportText = [] then
    .fail (chars "reviewer") jobId (chars "No report provided to reviewer") none
  else
    match chatResult with
    | .error e => .fail (chars "reviewer") jobId (chars "Reviewer agent failed") (some (exnDetail e))
    | .ok feedback => .success (chars "reviewer") jobId { reviewText := feedback } []

/-- src/agents/diagram_agent.py `run`. -/
def diagram_run (chatResult : Except Exn Str) (jobId : Str) (_theoryText : Str)
    (_dataSummary : Obj) (_templateCfg : TemplateCfg) : AgentResult :=
  match chatResult with
  | .error e => .fail (chars "diagram") jobId (chars "Diagram agent failed") (some (exnDetail e))
  | .ok figuresText => .success (chars "diagram") jobId { figuresText := figuresText } []

/-! ### src/agents/data_agent.py, numeric part -/

/-- A numeric column: entries are either a value or missing (`NaN`). -/
abbrev Col := List (Option ℚ)

/-- pandas `Series.dropna`. -/
def dropna (s : Col) : List ℚ := s.filterMap id

/-- Insertion into a sorted list, for the sort underlying `quantile`. -/
def insertSorted (x : ℚ) : List ℚ → List ℚ
  | [] => [x]
  | y :: ys => if x ≤ y then x :: y :: ys else y :: insertSorted x ys

/-- Sorting of the column values (pandas sorts before interpolating). -/
def sortQ (l : List ℚ) : List ℚ := l.foldr insertSorted []

/-- pandas `Series.quantile` with the default linear interpolation:
position `q·(n−1)` between the order statistics. -/
def quantileLinear (vs : List ℚ) (q : ℚ) : ℚ :=
  let sorted := sortQ vs
  let n := sorted.length
  let pos := q * ((n : ℚ) - 1)
  let i := (Rat.floor pos).toNat
  let frac := pos - (i : ℚ)
  let a := sorted.getD i 0
  let b := sorted.getD (min (i + 1) (n - 1)) 0
  a + frac * (b - a)

/-- The interquartile range of the non-missing values, `none` when every
entry is missing (over `ℚ` the `pd.isna(iqr)` test of the source can fire
only through that empty case, which the source already returns on). -/
def iqrOf? (s : Col) : Option ℚ :=
  let v := dropna s
  if v = [] then none
  else some (quantileLinear v (3 / 4) - quantileLinear v (1 / 4))

/-- src/agents/data_agent.py `_iqr_outlier_count`. -/
def iqr_outlier_count (s : Col) : Nat :=
  let v := dropna s
  if v = [] then 0
  else
    let q1 := quantileLinear v (1 / 4)
    let q3 := quantileLinear v (3 / 4)
    let iqr := q3 - q1
    if iqr = 0 then 0
    else
      let lo := q1 - 3 / 2 * iqr
      let hi := q3 + 3 / 2 * iqr
      (v.filter fun x => decide (x < lo) || decide (hi < x)).length

/-! ### src/orchestrator.py -/

/-- The step labels of the orchestrator, mirroring the keys of its
`timings_ms` map; the trace of a run lists them in invocation order. -/
inductive StepName where
  | research
  | data
  | writer
  | writerRepair
  | reviewer
  | diagram
  | writerQualityFix
deriving DecidableEq

/-- What `run_pipeline` can raise: the cooperative-cancellation signal
(`CancelledError`), an ordinary fatal step error (`RuntimeError` with the
step tag), or an uncaught internal exception (`KeyError` escaping the
quality gate, attribute access on a missing error object). -/
inductive PipeErr where
  | cancelled (msg : Str)
  | fatal (msg : Str)
  | crash
deriving DecidableEq

/-- Execution trace of one pipeline run: the step invocations in order and
the number of cancellation checks performed. -/
structure RunTrace where
  steps : List StepName
  checks : Nat
deriving DecidableEq

/-- The aggregate dict returned by `run_pipeline` (timing/status maps are
wall-clock artefacts and are not modelled). -/
structure PipeResult where
  theory : Str
  researchFacts : Obj
  dataSummary : Obj
  dataHighlights : Obj
  report : Str
  review : Str
  figures : Str
  reportSections : List (Str × Str)
  quality : QReport
deriving DecidableEq

/-- The five generation steps as injected request/response functions:
`research`, `data` and `writer` receive the job id and context mapping,
`reviewer` the report text and template, `diagram` the theory text, data
summary and template — exactly the arguments the orchestrator passes. -/
structure Env where
  research : Str → Ctx → AgentResult
  data : Str → Ctx → AgentResult
  writer : Str → Ctx → AgentResult
  reviewer : Str → Str → TemplateCfg → AgentResult
  diagram : Str → Str → Obj → TemplateCfg → AgentResult

/-- src/orchestrator.py `_merge_instructions`. -/
def mergeInstructions (cfg : TemplateCfg) (extra : Str) : Str :=
  let t := strip cfg.instructions
  let e := strip extra
  strip (List.intercalate (chars "\n\n") (([t, e]).filter fun s => ! s.isEmpty))

/-- src/orchestrator.py `_repair_prompt`. -/
def repairPrompt (missing : List Str) (cfg : TemplateCfg) : Str :=
  let required := cfg.writerFormat
  let requiredList :=
    if required.isEmpty then chars "(none)"
    else List.intercalate (chars ", ") (required.map fun h => h ++ [':'])
  let missingList := List.intercalate (chars ", ") (missing.map fun h => h ++ [':'])
  chars "IMPORTANT FIX PASS:\n" ++
  chars "- Your previous output is missing required sections: " ++ missingList ++ ['\n'] ++
  chars "- You MUST output the full report again using ALL required headers exactly.\n" ++
  chars "- Required headers are: " ++ requiredList ++ ['\n'] ++
  chars "- Do not add extra headers.\n" ++
  chars "- Keep the content consistent; only restructure/expand to include missing sections.\n" ++
  chars "- Keep it clean and submission-ready.\n"

/-- The message of the cancellation signal. -/
def cancelMsg : Str := chars "Job canceled by user."

/-- The `RuntimeError(f"[{step}] {error.message}: {error.detail}")` raised
on a fatal step failure; a failure result whose `error` is `None` would
instead crash the f-string attribute access. -/
def stepFatal (step : Str) (r : AgentResult) : PipeErr :=
  match r.error with
  | some e =>
    .fatal (chars "[" ++ step ++ chars "] " ++ e.message ++ chars ": " ++
      (e.detail.getD (chars "None")))
  | none => .crash

/-- Intermediate orchestrator state after the first write: current report
text and sections, the degraded-or-filled review/figures texts, and the
trace so far. -/
structure MidSt where
  reportText : Str
  sections : List (Str × Str)
  reviewText : Str
  figuresText : Str
  steps : List StepName
  checks : Nat

/-- The `if w.ok and w.payload.get("report_text")` acceptance shared by the
repair and quality-fix passes: take the re-written text and sections only
when the retry succeeded with non-empty text, else keep the state. -/
def acceptRewrite (st : MidSt) (w : AgentResult) : MidSt :=
  if w.ok ∧ ¬ w.payload.reportText = [] then
    { st with reportText := w.payload.reportText, sections := w.payload.sections }
  else st

/-- Step 3b of `run_pipeline`: one structural repair pass.  Runs only when
the template names required headers and some header's split section is
empty after trimming; re-invokes the writer once with the repair prompt
appended and accepts the result only if it is `ok` with non-empty text. -/
def repairStage (env : Env) (jobId : Str) (cfg : TemplateCfg) (merged : Str) (ctx2 : Ctx)
    (shouldCancel : Nat → Bool) (st : MidSt) : Except (PipeErr × RunTrace) MidSt :=
  let requiredHeaders := cfg.writerFormat
  if requiredHeaders.isEmpty then .ok st
  else
    let missing := requiredHeaders.filter fun h => (strip (lookupD st.sections h)).isEmpty
    if missing.isEmpty then .ok st
    else if shouldCancel st.checks then .error (.cancelled cancelMsg, ⟨st.steps, st.checks + 1⟩)
    else
      let ctxFix := { ctx2 with
        extraInstructions := strip (merged ++ chars "\n\n" ++ repairPrompt missing cfg) }
      let w2 := env.writer jobId ctxFix
      .ok (acceptRewrite { st with steps := st.steps ++ [StepName.writerRepair],
                                   checks := st.checks + 1 } w2)

/-- Step 4 of `run_pipeline`: the optional review; a failing reviewer
degrades to an empty review text. -/
def reviewStage (env : Env) (jobId : Str) (includeReview : Bool) (cfg : TemplateCfg)
    (shouldCancel : Nat → Bool) (st : MidSt) : Except (PipeErr × RunTrace) MidSt :=
  if includeReview ∧ cfg.includeReview then
    if shouldCancel st.checks then .error (.cancelled cancelMsg, ⟨st.steps, st.checks + 1⟩)
    else
      let rv := env.reviewer jobId st.reportText cfg
      let st2 := { st with steps := st.steps ++ [StepName.reviewer], checks := st.checks + 1 }
      if rv.ok then .ok { st2 with reviewText := rv.payload.reviewText }
      else .ok { st2 with reviewText := [] }
  else .ok st

/-- Step 5 of `run_pipeline`: the optional diagram suggestions, enabled by
`include_figures` (defaulting to `True` when the key is absent) and a
non-empty data summary; a failing diagram step degrades to empty figures. -/
def diagramStage (env : Env) (jobId : Str) (cfg : TemplateCfg) (theoryText : Str)
    (dataSummary : Obj) (shouldCancel : Nat → Bool) (st : MidSt) :
    Except (PipeErr × RunTrace) MidSt :=
  if cfg.includeFigures.getD true ∧ ¬ dataSummary.isEmpty then
    if shouldCancel st.checks then .error (.cancelled cancelMsg, ⟨st.steps, st.checks + 1⟩)
    else
      let dg := env.diagram jobId theoryText dataSummary cfg
      let st2 := { st with steps := st.steps ++ [StepName.diagram], checks := st.checks + 1 }
      if dg.ok then .ok { st2 with figuresText := dg.payload.figuresText }
      else .ok st2
  else .ok st

/-- Step 6 of `run_pipeline`: the quality gate plus at most one quality-fix
write.  Note that, unlike every other step, the quality-fix write is not
preceded by a cancellation check in the source. -/
def qualityStage (env : Env) (jobId : Str) (cfg : TemplateCfg) (merged : Str) (ctx2 : Ctx)
    (st : MidSt) : Except (PipeErr × RunTrace) (QReport × MidSt) :=
  match evaluate_report_quality st.reportText cfg with
  | .error _ => .error (.crash, ⟨st.steps, st.checks⟩)
  | .ok q =>
    if q.ok then .ok (q, st)
    else
      let ctxQ := { ctx2 with
        extraInstructions := strip (merged ++ chars "\n\n" ++ build_quality_fix_prompt q.issues cfg) }
      let wq := env.writer jobId ctxQ
      let st3 := acceptRewrite { st with steps := st.steps ++ [StepName.writerQualityFix] } wq
      match evaluate_report_quality st3.reportText cfg with
      | .error _ => .error (.crash, ⟨st3.steps, st3.checks⟩)
      | .ok q2 => .ok (q2, st3)

/-- The initial context dict built at the top of `run_pipeline`. -/
def pipelineCtx (manualText goal : Str) (csvPath : Option Str) (extraInstructions : Str)
    (cfg : TemplateCfg) : Ctx :=
  { manualText := manualText, goal := goal, csvPath := csvPath,
    previewRows := cfg.previewRows,
    extraInstructions := mergeInstructions cfg extraInstructions,
    templateCfg := cfg }

/-- The enriched context `ctx2` handed to the writer: the initial context
plus the research and data payload fields. -/
def writerCtx (env : Env) (jobId : Str) (ctx : Ctx) : Ctx :=
  let r1 := env.research jobId ctx
  let d1 := env.data jobId ctx
  { ctx with theoryText := r1.payload.theoryText,
             researchFacts := r1.payload.researchFacts,
             dataSummary := d1.payload.dataSummary,
             dataHighlights := d1.payload.dataHighlights }

/-- src/orchestrator.py `run_pipeline`.  The injected cancellation
predicate is modelled as a function of the number of checks already
performed (the source polls a zero-argument callable; successive polls are
numbered).  The result is the aggregate (or the raised signal) paired with
the execution trace. -/
def run_pipeline (env : Env) (jobId manualText goal : Str) (csvPath : Option Str)
    (extraInstructions : Str) (templateCfg : TemplateCfg) (includeReview : Bool)
    (shouldCancel : Nat → Bool) : Except PipeErr PipeResult × RunTrace :=
  let merged := mergeInstructions templateCfg extraInstructions
  let ctx := pipelineCtx manualText goal csvPath extraInstructions templateCfg
  if shouldCancel 0 then (.error (.cancelled cancelMsg), ⟨[], 1⟩)
  else
    let r1 := env.research jobId ctx
    if ¬ r1.ok then (.error (stepFatal (chars "research") r1), ⟨[.research], 1⟩)
    else if shouldCancel 1 then (.error (.cancelled cancelMsg), ⟨[.research], 2⟩)
    else
      let d1 := env.data jobId ctx
      if ¬ d1.ok then (.error (stepFatal (chars "data") d1), ⟨[.research, .data], 2⟩)
      else if shouldCancel 2 then (.error (.cancelled cancelMsg), ⟨[.research, .data], 3⟩)
      else
        let ctx2 := writerCtx env jobId ctx
        let w1 := env.writer jobId ctx2
        if ¬ w1.ok then (.error (stepFatal (chars "writer") w1), ⟨[.research, .data, .writer], 3⟩)
        else
          let st0 : MidSt :=
            ⟨w1.payload.reportText, w1.payload.sections, [], [], [.research, .data, .writer], 3⟩
          match repairStage env jobId templateCfg merged ctx2 shouldCancel st0 with
          | .error e => (.error e.1, e.2)
          | .ok st1 =>
            match reviewStage env jobId includeReview templateCfg shouldCancel st1 with
            | .error e => (.error e.1, e.2)
            | .ok st2 =>
              match diagramStage env jobId templateCfg ctx2.theoryText ctx2.dataSummary
                  shouldCancel st2 with
              | .error e => (.error e.1, e.2)
              | .ok st3 =>
                match qualityStage env jobId templateCfg merged ctx2 st3 with
                | .error e => (.error e.1, e.2)
                | .ok qst =>
                  (.ok { theory := ctx2.theoryText, researchFacts := ctx2.researchFacts,
                         dataSummary := ctx2.dataSummary, dataHighlights := ctx2.dataHighlights,
                         report := qst.2.reportText, review := qst.2.reviewText,
                         figures := qst.2.figuresText, reportSections := qst.2.sections,
                         quality := qst.1 }, ⟨qst.2.steps, qst.2.checks⟩)

/-- The number of invocations of the writing step in a trace: the initial
write plus any repair and quality-fix re-invocations. -/
def writerCalls (steps : List StepName) : Nat :=
  steps.count .writer + steps.count .writerRepair + steps.count .writerQualityFix

/-! ### Reference descriptions of the splitter, for the refinement claims -/

/-- Label every non-header line with the most recently opened section (the
recogniser is a parameter so the same walk serves both the code's
recognition rule and the spec's claimed rule). -/
def ownerOfR (rec : Str → Option Str) : List Str → Option Str → List (Option Str × Str)
  | [], _ => []
  | ln :: rest, cur =>
    match rec ln with
    | some nm => ownerOfR rec rest (some nm)
    | none => (cur, ln) :: ownerOfR rec rest cur

/-- The section open after processing the given lines. -/
def finalOwnerR (rec : Str → Option Str) (lines : List Str) (cur : Option Str) : Option Str :=
  lines.foldl (fun c ln => match rec ln with | some nm => some nm | none => c) cur

/-- Declarative description of `split_by_headers` (the amended spec
sentence): a recognised line opens its section, subsequent lines accumulate
into the open section until the next recognised line, content before the
first recognised line is discarded, and every requested header maps to its
trimmed accumulated body (empty when never opened). -/
def splitSpec (text : Str) (headers : List Str) : List (Str × Str) :=
  let headerSet := headers.map strip
  let labeled := ownerOfR (recognize headerSet) (splitlines text) none
  (pyKeys headers).map fun k =>
    (k, strip (List.intercalate ['\n']
      ((labeled.filter fun p => decide (p.1 = some k)).map (·.2))))

/-- The recognition rule exactly as the spec sentence states it: a line
opens a header's section when the line, after trimming, equals the header
string followed by a colon. -/
def recognizeClaim (headers : List Str) (ln : Str) : Option Str :=
  headers.find? fun h => strip ln == h ++ [':']

/-- The splitter as described by the spec sentence of C4 (exact
trimmed-line equality with `header:`), used to compare the claimed
behaviour with the code's. -/
def splitClaim (text : Str) (headers : List Str) : List (Str × Str) :=
  let labeled := ownerOfR (recognizeClaim headers) (splitlines text) none
  (pyKeys headers).map fun k =>
    (k, strip (List.intercalate ['\n']
      ((labeled.filter fun p => decide (p.1 = some k)).map (·.2))))

/-- Drop trailing empty lines (used to describe the lines of a trimmed
joined text). -/
def dropTE (ls : List Str) : List Str := (ls.reverse.dropWhile fun l => l.isEmpty).reverse

/-! ### Concrete templates and environments used by counterexamples and
witnesses -/

/-- A template requiring the single header `Objective`. -/
def cfgObjective : TemplateCfg := { writerFormat := [chars "Objective"] }

/-- A template requiring headers `A` and `B`, with no quality rules. -/
def cfgAB : TemplateCfg := { writerFormat := [chars "A", chars "B"] }

/-- A template requiring `Objective` with a five-word minimum on it. -/
def cfgShortObjective : TemplateCfg :=
  { writerFormat := [chars "Objective"],
    quality := { minWords := [(chars "Objective", 5)] } }

/-- The quality configuration of the spec's missing-term scenario (the
repository test `test_quality_gate_detects_missing_required_term`):
`Discussion` must mention `limitation`, `Results` needs two words. -/
def cfgScenario : TemplateCfg :=
  { writerFormat := [chars "Results", chars "Discussion"],
    quality := { minWords := [(chars "Results", 2)],
                 requiredTermsBySection := [(chars "Discussion", [chars "limitation"])] } }

/-- The report text of the spec's missing-term scenario. -/
def scenarioReport : Str :=
  chars "Results:\nGood data summary.\n\nDiscussion:\nThis section is present but lacks expected wording."

/-- A research step that always succeeds with a fixed theory text. -/
def researchOk : Str → Ctx → AgentResult := fun jobId _ =>
  .success (chars "research") jobId { theoryText := chars "theory" } []

/-- A data step that always succeeds with an empty data summary. -/
def dataOk : Str → Ctx → AgentResult := fun jobId _ =>
  .success (chars "data") jobId {} []

/-- A data step that always succeeds with a non-empty data summary. -/
def dataOkNonEmpty : Str → Ctx → AgentResult := fun jobId _ =>
  .success (chars "data") jobId { dataSummary := [(chars "n_total", [chars "3"])] } []

/-- An environment from fixed chat replies: each agent is the embedded
wrapper applied to a successful generation call with the given text. -/
def envOfReplies (writerReply reviewerReply diagramReply : String) : Env :=
  { research := researchOk, data := dataOk,
    writer := fun jobId ctx => writer_run (.ok (chars writerReply)) jobId ctx,
    reviewer := fun jobId r cfg => reviewer_run (.ok (chars reviewerReply)) jobId r cfg,
    diagram := fun jobId t d cfg => diagram_run (.ok (chars diagramReply)) jobId t d cfg }

/-- The environment whose writer never produces the required header:
every write returns the plain text `hello`. -/
def envHello : Env := envOfReplies "hello" "rv" "fig"

/-- The environment whose writer always emits `A:` and `B:` header lines
but leaves section `A` empty. -/
def envEmptyA : Env := envOfReplies "A:\nB:\nbody" "rv" "fig"

/-- The environment whose writer always emits a two-word `Objective`
section (too short for `cfgShortObjective`'s five-word minimum). -/
def envShortObjective : Env := envOfReplies "Objective:\nhi" "rv" "fig"

/-- Whether the quality gate passes on a text: evaluation completed without
raising and reported `ok` (a raised `KeyError` counts as not passing). -/
def gatePasses (t : Str) (cfg : TemplateCfg) : Bool :=
  match evaluate_report_quality t cfg with
  | .ok q => q.ok
  | .error _ => false

/-- Whether quality evaluation raises (the gate's `KeyError` path). -/
def gateRaises (t : Str) (cfg : TemplateCfg) : Bool :=
  match evaluate_report_quality t cfg with
  | .ok _ => false
  | .error _ => true

/-- The report text in effect after an accept-or-keep retry: the retry's
text when it succeeded with non-empty text, the original otherwise. -/
def acceptText (orig : Str) (w : AgentResult) : Str :=
  if w.ok ∧ ¬ w.payload.reportText = [] then w.payload.reportText else orig

/-- `cfgObjective` with the reviewer pass enabled. -/
def cfgReview : TemplateCfg :=
  { writerFormat := [chars "Objective"], includeReview := true }

/-- The environment whose writer fills `Objective` and whose data step
returns a non-empty data summary. -/
def envDiagram : Env :=
  { envOfReplies "Objective:\nbody text here" "rv" "fig" with data := dataOkNonEmpty }

/-- The environment whose writer fills both `A` and `B` with bodies. -/
def envGood : Env := envOfReplies "A:\nalpha\nB:\nbeta" "rv" "fig"

/-- A research step that always fails. -/
def researchFail : Str → Ctx → AgentResult := fun jobId _ =>
  AgentResult.fail (chars "research") jobId (chars "Research agent failed")
    (some (chars "RuntimeError: boom"))

/-- `envHello` with the failing research step. -/
def envResearchFail : Env := { envHello with research := researchFail }

/-- The lines a section body contributes to the serialised report: an
empty body stands as one empty line, a non-empty body as its own lines. -/
def bodyLines (b : Str) : List Str := if b = [] then [[]] else splitNl b

/-- Headers of the C1 counterexample. -/
def c1Headers : List Str := [chars "A", chars "B"]

/-- Sections of the C1 counterexample: section `A` contains the line
` B: ` — not equal to the line `B:`, yet recognised by the splitter after
trimming. -/
def c1Sections : List (Str × Str) :=
  [(chars "A", chars "x\n B: \ny"), (chars "B", chars "z")]

set_option maxHeartbeats 2000000 in
theorem splitlinesAux_cons_break (c : Char) (rest acc : Str)
    (hne : ∀ r, c = '\x0d' → rest = '\n' :: r → False) (hb : isBreak c = true) :
    splitlinesAux (c :: rest) acc = acc.reverse :: splitlinesAux rest [] := by
  rw [splitlinesAux.eq_def]
  split
  · simp_all
  · rename_i heq
    injection heq with h1 h2
    exact (hne _ h1 h2).elim
  · rename_i heq
    injection heq with h1 h2
    subst h1; subst h2
    simp [hb]

theorem splitlinesAux_cons_nonbreak (c : Char) (rest acc : Str)
    (hb : ¬ isBreak c = true) :
    splitlinesAux (c :: rest) acc = splitlinesAux rest (c :: acc) := by
  rw [splitlinesAux.eq_def]
  split
  · simp_all
  · rename_i heq
    injection heq with h1 h2
    exact absurd (h1 ▸ (by decide : isBreak '\x0d' = true)) hb
  · rename_i heq
    injection heq with h1 h2
    subst h1; subst h2
    simp [hb]

theorem splitlinesAux_eq_splitNlAux (s : Str) (acc : Str) (h : nlOnly s) :
    splitlinesAux s acc = splitNlAux s acc := by
  induction s, acc using splitlinesAux.induct with
  | case1 acc hacc => simp [splitlinesAux, splitNlAux, hacc]
  | case2 acc hacc => simp [splitlinesAux, splitNlAux, hacc]
  | case3 rest acc ih =>
    exact absurd (h '\x0d' (by simp) (by decide)) (by decide)
  | case4 c rest acc hne hb ih =>
    have hrest : nlOnly rest := fun x hx => h x (List.mem_cons_of_mem _ hx)
    have hcn : c = '\n' := h c (by simp) hb
    subst hcn
    rw [splitlinesAux_cons_break _ _ _ hne hb,
      show splitNlAux ('\n' :: rest) acc = acc.reverse :: splitNlAux rest [] by
        simp [splitNlAux]]
    exact congrArg _ (ih hrest)
  | case5 c rest acc hne hb ih =>
    have hrest : nlOnly rest := fun x hx => h x (List.mem_cons_of_mem _ hx)
    have hcn : ¬ c = '\n' := by
      intro hcn; subst hcn; exact hb (by decide)
    rw [splitlinesAux_cons_nonbreak _ _ _ hb,
      show splitNlAux (c :: rest) acc = splitNlAux rest (c :: acc) by
        simp [splitNlAux, hcn]]
    exact ih hrest

theorem splitlines_eq_splitNl (s : Str) (h : nlOnly s) :
    splitlines s = splitNl s :=
  splitlinesAux_eq_splitNlAux s [] h

/-! ### Elementary facts about `lstrip`, `rstrip`, `strip` -/

theorem lstrip_ws_append (w x : Str) (h : ∀ c ∈ w, isSpace c = true) :
    lstrip (w ++ x) = lstrip x := by
  induction w with
  | nil => rfl
  | cons c t ih =>
    have hc := h c (List.mem_cons_self _ _)
    simp only [List.cons_append, lstrip, hc, if_true]
    exact ih fun x hx => h x (List.mem_cons_of_mem _ hx)

theorem lstrip_length (s : Str) : (lstrip s).length ≤ s.length := by
  induction s with
  | nil => simp [lstrip]
  | cons c t ih =>
    simp only [lstrip]
    split
    · exact Nat.le_succ_of_le ih
    · simp

theorem lstrip_eq_of_length (s : Str) (h : (lstrip s).length = s.length) :
    lstrip s = s := by
  cases s with
  | nil => rfl
  | cons c t =>
    by_cases hsp : isSpace c
    · exfalso
      simp only [lstrip, hsp, if_true, List.length_cons] at h
      have := lstrip_length t
      omega
    · simp [lstrip, hsp]

theorem lstrip_suffix (s : Str) : lstrip s <:+ s := by
  induction s with
  | nil => exact List.suffix_refl _
  | cons c t ih =>
    simp only [lstrip]
    split
    · exact ih.trans (List.suffix_cons _ _)
    · exact List.suffix_refl _

theorem lstrip_head_not_space (s : Str) (c : Char)
    (h : (lstrip s).head? = some c) : isSpace c = false := by
  induction s with
  | nil => simp [lstrip] at h
  | cons c' t ih =>
    simp only [lstrip] at h
    revert h
    split
    · exact ih
    · rename_i hsp
      intro h
      simp only [List.head?_cons, Option.some.injEq] at h
      subst h
      simpa using hsp

theorem lstrip_eq_self_of_head (s : Str)
    (h : ∀ c, s.head? = some c → isSpace c = false) : lstrip s = s := by
  cases s with
  | nil => rfl
  | cons c t =>
    have := h c (by simp)
    simp [lstrip, this]

theorem lstrip_idem (s : Str) : lstrip (lstrip s) = lstrip s :=
  lstrip_eq_self_of_head _ fun c h => lstrip_head_not_space s c h

theorem rstrip_ws_append (s w : Str) (h : ∀ c ∈ w, isSpace c = true) :
    rstrip (s ++ w) = rstrip s := by
  unfold rstrip
  rw [List.reverse_append, lstrip_ws_append _ _ (by simpa using fun c hc => h c hc)]

theorem rstrip_prefix (s : Str) : rstrip s <+: s := by
  obtain ⟨t, ht⟩ := lstrip_suffix s.reverse
  refine ⟨t.reverse, ?_⟩
  unfold rstrip
  rw [show (lstrip s.reverse).reverse ++ t.reverse = (t ++ lstrip s.reverse).reverse from
    (List.reverse_append _ _).symm, ht, List.reverse_reverse]

theorem rstrip_getLast_not_space (s : Str) (c : Char)
    (h : (rstrip s).getLast? = some c) : isSpace c = false := by
  unfold rstrip at h
  rw [List.getLast?_reverse] at h
  exact lstrip_head_not_space _ _ h

theorem rstrip_eq_self_of_getLast (s : Str)
    (h : ∀ c, s.getLast? = some c → isSpace c = false) : rstrip s = s := by
  unfold rstrip
  have hfix : lstrip s.reverse = s.reverse := by
    apply lstrip_eq_self_of_head
    intro c hc
    rw [List.head?_reverse] at hc
    exact h c hc
  rw [hfix, List.reverse_reverse]

theorem rstrip_idem (s : Str) : rstrip (rstrip s) = rstrip s :=
  rstrip_eq_self_of_getLast _ fun c h => rstrip_getLast_not_space s c h

theorem rstrip_eq_of_length (s : Str) (h : (rstrip s).length = s.length) :
    rstrip s = s := by
  unfold rstrip at h ⊢
  rw [lstrip_eq_of_length s.reverse (by simpa using h)]
  simp

theorem rstrip_length (s : Str) : (rstrip s).length ≤ s.length := by
  unfold rstrip
  simpa using lstrip_length s.reverse

theorem strip_append_ws (s w : Str) (h : ∀ c ∈ w, isSpace c = true) :
    strip (s ++ w) = strip s := by
  unfold strip
  rw [rstrip_ws_append _ _ h]

theorem strip_fix_lstrip (s : Str) (h : strip s = s) : lstrip s = s ∧ rstrip s = s := by
  unfold strip at h
  have h1 : (lstrip (rstrip s)).length ≤ (rstrip s).length := lstrip_length _
  have h2 : (rstrip s).length ≤ s.length := rstrip_length _
  have h3 : (lstrip (rstrip s)).length = s.length := by rw [h]
  have hr : rstrip s = s := rstrip_eq_of_length _ (by omega)
  rw [hr] at h
  exact ⟨h, hr⟩

theorem strip_head_not_space (s : Str) (c : Char)
    (h : (strip s).head? = some c) : isSpace c = false :=
  lstrip_head_not_space _ _ h

theorem strip_getLast_not_space (s : Str) (c : Char)
    (h : (strip s).getLast? = some c) : isSpace c = false := by
  unfold strip at h
  by_cases hne : lstrip (rstrip s) = []
  · rw [hne] at h; simp at h
  · obtain ⟨u, hu⟩ := lstrip_suffix (rstrip s)
    have h2 : (rstrip s).getLast? = some c := by
      rw [← hu, List.getLast?_append_of_ne_nil u hne]
      exact h
    exact rstrip_getLast_not_space _ _ h2

theorem strip_idem (s : Str) : strip (strip s) = strip s := by
  unfold strip
  rw [rstrip_eq_self_of_getLast (lstrip (rstrip s))
      (fun c h => strip_getLast_not_space s c h),
    lstrip_idem]

theorem sortQ_all_eq (l : List ℚ) (v : ℚ) (h : ∀ x ∈ l, x = v) :
    sortQ l = List.replicate l.length v := by
  induction l with
  | nil => rfl
  | cons x t ih =>
    have hx : x = v := h x (by simp)
    have ht : sortQ t = List.replicate t.length v := ih fun y hy => h y (by simp [hy])
    subst hx
    show insertSorted x (sortQ t) = _
    rw [ht]
    cases t with
    | nil => rfl
    | cons y t2 =>
      simp only [List.length_cons, List.replicate_succ, insertSorted, if_pos (le_refl x)]

theorem getD_replicate (n i : ℕ) (v : ℚ) (h : i < n) :
    (List.replicate n v).getD i 0 = v := by
  rw [List.getD_eq_getElem?_getD, List.getElem?_replicate, if_pos h]
  rfl

theorem quantileLinear_const (l : List ℚ) (v : ℚ) (q : ℚ) (hne : l ≠ [])
    (hall : ∀ x ∈ l, x = v) (hq0 : 0 ≤ q) (hq1 : q ≤ 1) :
    quantileLinear l q = v := by
  have hlen : 1 ≤ l.length := by
    cases l with
    | nil => exact absurd rfl hne
    | cons a t => simp
  unfold quantileLinear
  rw [sortQ_all_eq l v hall]
  simp only [List.length_replicate]
  have hpos0 : (0 : ℚ) ≤ q * ((l.length : ℚ) - 1) := by
    have : (0 : ℚ) ≤ (l.length : ℚ) - 1 := by
      have : (1 : ℚ) ≤ (l.length : ℚ) := by exact_mod_cast hlen
      linarith
    positivity
  have hposTop : q * ((l.length : ℚ) - 1) ≤ (l.length : ℚ) - 1 := by
    have h1 : (0 : ℚ) ≤ (l.length : ℚ) - 1 := by
      have : (1 : ℚ) ≤ (l.length : ℚ) := by exact_mod_cast hlen
      linarith
    nlinarith
  have hfl : Rat.floor (q * ((l.length : ℚ) - 1)) = ⌊q * ((l.length : ℚ) - 1)⌋ := rfl
  have hi0 : 0 ≤ ⌊q * ((l.length : ℚ) - 1)⌋ := Int.floor_nonneg.mpr hpos0
  have hiTop : ⌊q * ((l.length : ℚ) - 1)⌋ ≤ (l.length : ℤ) - 1 := by
    have := Int.floor_le_floor hposTop
    calc ⌊q * ((l.length : ℚ) - 1)⌋ ≤ ⌊(l.length : ℚ) - 1⌋ := this
      _ = (l.length : ℤ) - 1 := by
          rw [show ((l.length : ℚ) - 1) = ((l.length : ℤ) - 1 : ℤ) by push_cast; ring]
          exact Int.floor_intCast _
  have hiLt : (Rat.floor (q * ((l.length : ℚ) - 1))).toNat < l.length := by
    rw [hfl]
    omega
  have hbLt : min ((Rat.floor (q * ((l.length : ℚ) - 1))).toNat + 1) (l.length - 1) < l.length := by
    omega
  rw [getD_replicate _ _ _ hiLt, getD_replicate _ _ _ hbLt]
  ring

theorem strip_colon (h : Str) (hfix : strip h = h) :
    strip (h ++ [':']) = h ++ [':'] := by
  have hl := (strip_fix_lstrip h hfix).1
  unfold strip
  rw [rstrip_eq_self_of_getLast _ (by
    intro c hc
    rw [List.getLast?_concat] at hc
    cases hc
    decide)]
  cases h with
  | nil => decide
  | cons a t =>
    have ha : isSpace a = false := by
      by_contra hcon
      have : isSpace a = true := by revert hcon; cases isSpace a <;> simp
      simp [lstrip, this] at hl
      have := lstrip_length t
      have := congrArg List.length hl
      simp at this
      omega
    simp [lstrip, ha]

/-! ### The split fold in closed form -/

theorem recognize_mem (hset : List Str) (ln nm : Str) (h : recognize hset ln = some nm) :
    nm ∈ hset := by
  unfold recognize at h
  by_cases hc : endsColon (strip ln) = true
  · rw [if_pos hc] at h
    by_cases hm : strip (strip ln).dropLast ∈ hset
    · rw [if_pos hm] at h
      injection h with h
      exact h ▸ hm
    · rw [if_neg hm] at h
      exact absurd h (by simp)
  · rw [if_neg hc] at h
    exact absurd h (by simp)

theorem sbh_fold_ok (hset keys : List Str) (lines : List Str) :
    ∀ (cur : Option Str) (A : Str → List Str),
    (∀ nm ∈ hset, nm ∈ keys) →
    (∀ c, cur = some c → c ∈ keys) →
    lines.foldlM (sbhStep hset keys) (SBHSt.mk cur A) =
      .ok (SBHSt.mk (finalOwnerR (recognize hset) lines cur)
        (fun k => A k ++ ((ownerOfR (recognize hset) lines cur).filter
          (fun p => decide (p.1 = some k))).map (·.2))) := by
  induction lines with
  | nil =>
    intro cur A hsub hcur
    simp only [List.foldlM_nil, finalOwnerR, List.foldl_nil, ownerOfR, List.filter_nil,
      List.map_nil, List.append_nil]
    rfl
  | cons ln rest ih =>
    intro cur A hsub hcur
    rw [List.foldlM_cons]
    cases hrec : recognize hset ln with
    | some nm =>
      have hstep : sbhStep hset keys (SBHSt.mk cur A) ln = .ok (SBHSt.mk (some nm) A) := by
        simp [sbhStep, hrec]
      rw [hstep]
      show rest.foldlM (sbhStep hset keys) (SBHSt.mk (some nm) A) = _
      rw [ih (some nm) A hsub (fun c hc => by
        injection hc with hc
        exact hc ▸ hsub nm (recognize_mem hset ln nm hrec))]
      simp only [finalOwnerR, List.foldl_cons, hrec, ownerOfR]
    | none =>
      cases cur with
      | none =>
        have hstep : sbhStep hset keys (SBHSt.mk none A) ln = .ok (SBHSt.mk none A) := by
          simp [sbhStep, hrec]
        rw [hstep]
        show rest.foldlM (sbhStep hset keys) (SBHSt.mk none A) = _
        rw [ih none A hsub (fun c hc => by cases hc)]
        simp only [finalOwnerR, List.foldl_cons, hrec, ownerOfR, List.filter_cons,
          Except.ok.injEq, SBHSt.mk.injEq]
        refine ⟨trivial, ?_⟩
        funext k
        simp
      | some c =>
        have hc := hcur c rfl
        have hstep : sbhStep hset keys (SBHSt.mk (some c) A) ln =
            .ok (SBHSt.mk (some c) (fun k => if k = c then A k ++ [ln] else A k)) := by
          simp [sbhStep, hrec, hc]
        rw [hstep]
        show rest.foldlM (sbhStep hset keys) _ = _
        rw [ih (some c) _ hsub hcur]
        simp only [finalOwnerR, List.foldl_cons, hrec, ownerOfR, List.filter_cons,
          Except.ok.injEq, SBHSt.mk.injEq]
        refine ⟨trivial, ?_⟩
        funext k
        by_cases hk : k = c
        · subst hk
          simp [List.append_assoc]
        · have hck : ¬ c = k := fun h => hk h.symm
          simp [hck, hk]

theorem mem_pyKeysAux (l : List Str) :
    ∀ (seen : List Str) (x : Str), x ∈ pyKeysAux l seen ↔ x ∈ l ∧ x ∉ seen := by
  induction l with
  | nil => intro seen x; simp [pyKeysAux]
  | cons h t ih =>
    intro seen x
    by_cases hs : h ∈ seen
    · rw [show pyKeysAux (h :: t) seen = pyKeysAux t seen by simp [pyKeysAux, hs], ih]
      constructor
      · rintro ⟨hxt, hxs⟩
        exact ⟨List.mem_cons_of_mem _ hxt, hxs⟩
      · rintro ⟨hx, hxs⟩
        rcases List.mem_cons.mp hx with hxh | hxt
        · exact absurd (hxh ▸ hs) hxs
        · exact ⟨hxt, hxs⟩
    · rw [show pyKeysAux (h :: t) seen = h :: pyKeysAux t (h :: seen) by simp [pyKeysAux, hs]]
      constructor
      · intro hx
        rcases List.mem_cons.mp hx with hxh | hxt
        · exact ⟨hxh ▸ List.mem_cons_self _ _, hxh ▸ hs⟩
        · obtain ⟨h1, h2⟩ := (ih _ x).mp hxt
          exact ⟨List.mem_cons_of_mem _ h1, fun hc => h2 (List.mem_cons_of_mem _ hc)⟩
      · rintro ⟨hx, hxs⟩
        rcases List.mem_cons.mp hx with hxh | hxt
        · exact hxh ▸ List.mem_cons_self _ _
        · by_cases hxh : x = h
          · exact hxh ▸ List.mem_cons_self _ _
          · refine List.mem_cons_of_mem _ ((ih _ x).mpr ⟨hxt, ?_⟩)
            intro hc
            rcases List.mem_cons.mp hc with h1 | h1
            · exact hxh h1
            · exact hxs h1

theorem mem_pyKeys (hs : List Str) (x : Str) : x ∈ pyKeys hs ↔ x ∈ hs := by
  rw [pyKeys, mem_pyKeysAux]
  simp

theorem pyKeysAux_nodup_eq (l : List Str) :
    ∀ seen : List Str, l.Nodup → (∀ x ∈ l, x ∉ seen) → pyKeysAux l seen = l := by
  induction l with
  | nil => intro seen _ _; rfl
  | cons h t ih =>
    intro seen hnd hdis
    have hs : h ∉ seen := hdis h (List.mem_cons_self _ _)
    rw [show pyKeysAux (h :: t) seen = h :: pyKeysAux t (h :: seen) by simp [pyKeysAux, hs]]
    rw [ih (h :: seen) (List.Nodup.of_cons hnd) ?_]
    intro x hx
    intro hc
    rcases List.mem_cons.mp hc with h1 | h1
    · exact (List.nodup_cons.mp hnd).1 (h1 ▸ hx)
    · exact hdis x (List.mem_cons_of_mem _ hx) h1

theorem pyKeys_nodup_eq (hs : List Str) (h : hs.Nodup) : pyKeys hs = hs :=
  pyKeysAux_nodup_eq hs [] h (by simp)

theorem map_strip_fixed (hs : List Str) (hfix : ∀ h ∈ hs, strip h = h) :
    hs.map strip = hs := by
  induction hs with
  | nil => rfl
  | cons h t ih =>
    simp only [List.map_cons, hfix h (List.mem_cons_self _ _)]
    rw [ih fun x hx => hfix x (List.mem_cons_of_mem _ hx)]

theorem split_by_headers_closed (text : Str) (headers : List Str)
    (hfix : ∀ h ∈ headers, strip h = h) :
    split_by_headers text headers = .ok (splitSpec text headers) := by
  have hmap : headers.map strip = headers := map_strip_fixed headers hfix
  have hsub : ∀ nm ∈ headers.map strip, nm ∈ pyKeys headers := by
    intro nm hnm
    rw [hmap] at hnm
    exact (mem_pyKeys headers nm).mpr hnm
  unfold split_by_headers splitSpec
  dsimp only
  rw [sbh_fold_ok (headers.map strip) (pyKeys headers) (splitlines text) none (fun _ => [])
    hsub (fun c hc => by cases hc)]
  simp [Except.bind]

theorem evaluate_total (cfg : TemplateCfg) (hfix : ∀ h ∈ cfg.writerFormat, strip h = h)
    (t : Str) : ∃ q, evaluate_report_quality t cfg = .ok q := by
  unfold evaluate_report_quality
  by_cases hwf : cfg.writerFormat.isEmpty
  · rw [if_pos hwf]
    exact ⟨_, rfl⟩
  · rw [if_neg hwf, split_by_headers_closed t cfg.writerFormat hfix]
    exact ⟨_, rfl⟩

/-- C8: the data step's interquartile-range outlier count is 0 whenever the
IQR over the non-missing values is zero or undefined (every entry missing);
in particular a column whose non-missing values are all equal (zero
variance) reports 0 outliers. -/
theorem c8_iqr_zero_outliers :
    (∀ s : Col, iqrOf? s = none ∨ iqrOf? s = some 0 → iqr_outlier_count s = 0) ∧
    (∀ (s : Col) (v : ℚ), dropna s ≠ [] → (∀ x ∈ dropna s, x = v) →
      iqr_outlier_count s = 0) := by
  constructor
  · intro s h
    by_cases hv : dropna s = []
    · simp only [iqr_outlier_count]
      rw [if_pos hv]
    · have hiqr : quantileLinear (dropna s) (3 / 4) - quantileLinear (dropna s) (1 / 4) = 0 := by
        rcases h with h | h
        · exfalso
          unfold iqrOf? at h
          simp [hv] at h
        · unfold iqrOf? at h
          simp only [if_neg hv, Option.some.injEq] at h
          exact h
      simp only [iqr_outlier_count]
      rw [if_neg hv, if_pos hiqr]
  · intro s v hne hall
    have h1 : quantileLinear (dropna s) (1 / 4) = v :=
      quantileLinear_const _ _ _ hne hall (by norm_num) (by norm_num)
    have h3 : quantileLinear (dropna s) (3 / 4) = v :=
      quantileLinear_const _ _ _ hne hall (by norm_num) (by norm_num)
    simp only [iqr_outlier_count]
    rw [if_neg hne, h1, h3, if_pos (sub_self v)]

/-- Witness for C8 at the zero-variance column `[5, 5, 5]`. -/
theorem c8_iqr_zero_outliers_witness :
    (dropna [some 5, some 5, some 5] ≠ [] ∧
      ∀ x ∈ dropna [some 5, some 5, some 5], x = (5 : ℚ)) ∧
    iqr_outlier_count [some 5, some 5, some 5] = 0 :=
  ⟨⟨by decide, by decide⟩,
    c8_iqr_zero_outliers.2 [some 5, some 5, some 5] 5 (by decide) (by decide)⟩

/-! ## Claim C9: success/failure dichotomy of step results -/

/-- C9: an `AgentResult` built by `success` has `ok = true` and no error;
one built by `fail` has `ok = false`, carries an error with message and
optional detail, and carries the empty payload.  Each embedded generation
wrapper (writer, research, reviewer, diagram) returns one of exactly these
two forms for every outcome of its single generation call — raised
exceptions are caught and converted, never propagated. -/
theorem c9_step_result_dichotomy :
    (∀ (a j : Str) (p : Payload) (w : List Str),
      (AgentResult.success a j p w).ok = true ∧ (AgentResult.success a j p w).error = none) ∧
    (∀ (a j m : Str) (d : Option Str),
      (AgentResult.fail a j m d).ok = false ∧
      (AgentResult.fail a j m d).error = some ⟨m, d⟩ ∧
      (AgentResult.fail a j m d).payload = {}) ∧
    (∀ (cr : Except Exn Str) (j : Str) (ctx : Ctx),
      (∃ p, writer_run cr j ctx = .success (chars "writer") j p []) ∨
      (∃ m d, writer_run cr j ctx = .fail (chars "writer") j m d)) ∧
    (∀ (cr : Except Exn Str) (j : Str) (ctx : Ctx),
      (∃ p, research_run cr j ctx = .success (chars "research") j p []) ∨
      (∃ m d, research_run cr j ctx = .fail (chars "research") j m d)) ∧
    (∀ (cr : Except Exn Str) (j rep : Str) (cfg : TemplateCfg),
      (∃ p, reviewer_run cr j rep cfg = .success (chars "reviewer") j p []) ∨
      (∃ m d, reviewer_run cr j rep cfg = .fail (chars "reviewer") j m d)) ∧
    (∀ (cr : Except Exn Str) (j t : Str) (d0 : Obj) (cfg : TemplateCfg),
      (∃ p, diagram_run cr j t d0 cfg = .success (chars "diagram") j p []) ∨
      (∃ m d, diagram_run cr j t d0 cfg = .fail (chars "diagram") j m d)) := by
  refine ⟨fun a j p w => ⟨rfl, rfl⟩, fun a j m d => ⟨rfl, rfl, rfl⟩, ?_, ?_, ?_, ?_⟩
  · intro cr j ctx
    cases cr with
    | error e => exact Or.inr ⟨_, _, rfl⟩
    | ok reportText =>
      by_cases hwf : ctx.templateCfg.writerFormat.isEmpty
      · exact Or.inl ⟨_, by simp only [writer_run, if_pos hwf]; rfl⟩
      · rcases hsp : split_by_headers reportText ctx.templateCfg.writerFormat with nm | secs
        · exact Or.inr ⟨_, _, by simp only [writer_run, if_neg hwf, hsp]; rfl⟩
        · exact Or.inl ⟨_, by simp only [writer_run, if_neg hwf, hsp]; rfl⟩
  · intro cr j ctx
    cases cr with
    | error e => exact Or.inr ⟨_, _, rfl⟩
    | ok theoryText => exact Or.inl ⟨_, rfl⟩
  · intro cr j rep cfg
    by_cases hrep : strip rep = []
    · exact Or.inr ⟨_, _, by simp only [reviewer_run, if_pos hrep]; rfl⟩
    · cases cr with
      | error e => exact Or.inr ⟨_, _, by simp only [reviewer_run, if_neg hrep]; rfl⟩
      | ok fb => exact Or.inl ⟨_, by simp only [reviewer_run, if_neg hrep]; rfl⟩
  · intro cr j t d0 cfg
    cases cr with
    | error e => exact Or.inr ⟨_, _, rfl⟩
    | ok fig => exact Or.inl ⟨_, rfl⟩

/-! ## Claim C4: the recognition rule of split_by_headers -/

/-- C4 counterexample: the claim says a line opens a section exactly when
the line, after trimming, equals `header:` verbatim.  On the text
`"B :\nx"` with headers `["B"]` the line `"B :"` trims to `"B :"`, which is
not `"B:"`, so the claimed rule assigns `B` the empty body — but the code
recognises the line (it only requires the trim to end in a colon with the
re-trimmed pre-colon part equal to a header) and returns `B ↦ "x"`. -/
theorem c4_counterexample :
    strip (chars "B :") ≠ chars "B" ++ [':'] ∧
    splitClaim (chars "B :\nx") [chars "B"] = [(chars "B", [])] ∧
    split_by_headers (chars "B :\nx") [chars "B"] = .ok [(chars "B", chars "x")] :=
  ⟨by decide, by decide, by decide⟩

/-- C4 amended: for headers that equal their own trim (CPython raises
`KeyError` otherwise), `split_by_headers` behaves exactly as the corrected
description `splitSpec`: a line opens a section exactly when its trim ends
with a colon and the pre-colon part, trimmed again, equals one of the
headers; subsequent lines accumulate into the open section until the next
recognised line; content before the first recognised line is discarded;
the result maps every requested header to its trimmed body, with the empty
string for headers never seen. -/
theorem c4_split_matches_description (text : Str) (headers : List Str)
    (hfix : ∀ h ∈ headers, strip h = h) :
    split_by_headers text headers = .ok (splitSpec text headers) :=
  split_by_headers_closed text headers hfix

/-- Witness for C4 on a text with junk before the first header. -/
theorem c4_split_matches_description_witness :
    (∀ h ∈ [chars "A"], strip h = h) ∧
    split_by_headers (chars "junk\nA:\nx") [chars "A"]
      = .ok (splitSpec (chars "junk\nA:\nx") [chars "A"]) :=
  ⟨by decide, c4_split_matches_description (chars "junk\nA:\nx") [chars "A"] (by decide)⟩

/-! ## Claim C7: missing required terms fail the quality gate -/

theorem evaluate_ok_elim (text : Str) (cfg : TemplateCfg) (r : QReport)
    (h : evaluate_report_quality text cfg = .ok r) :
    ∃ secs, r = ⟨(qualityIssues text cfg secs).isEmpty, qualityIssues text cfg secs, secs⟩ := by
  unfold evaluate_report_quality at h
  by_cases hwf : cfg.writerFormat.isEmpty
  · rw [if_pos hwf] at h
    exact ⟨[], (Except.ok.inj h).symm⟩
  · rw [if_neg hwf] at h
    rcases hsp : split_by_headers text cfg.writerFormat with e | secs <;> rw [hsp] at h
    · exact absurd h (by simp [Except.bind])
    · exact ⟨secs, (Except.ok.inj h).symm⟩

/-- C7: whenever a section carries a configured (non-empty) required-term
set, its split body is non-empty, and none of the terms occurs in the body
as a case-insensitive substring, `evaluate_report_quality` emits a
`missing_term` issue for that section and reports `ok = false`.  In
particular, on the spec's scenario (terms `["limitation"]` for
`Discussion`, two-word minimum for `Results`, report with a wording-free
`Discussion` section) the gate returns `ok = false` and exactly one issue,
a `missing_term` for `Discussion`. -/
theorem c7_missing_term_issue :
    (∀ (text : Str) (cfg : TemplateCfg) (r : QReport) (sec : Str) (terms : List Str),
      evaluate_report_quality text cfg = .ok r →
      (sec, terms) ∈ cfg.quality.requiredTermsBySection →
      lookupD r.sections sec ≠ [] →
      terms ≠ [] →
      (∀ t ∈ terms, isSubstr (lower t) (lower (lookupD r.sections sec)) = false) →
      (∃ i ∈ r.issues, i.kind = chars "missing_term" ∧ i.sec = sec) ∧ r.ok = false) ∧
    (evaluate_report_quality scenarioReport cfgScenario).map
        (fun q => (q.ok, q.issues.map fun i => (i.kind, i.sec)))
      = .ok (false, [(chars "missing_term", chars "Discussion")]) := by
  constructor
  · intro text cfg r sec terms heval hmem hbody hterms hnone
    obtain ⟨secs, hr⟩ := evaluate_ok_elim text cfg r heval
    subst hr
    simp only at hbody hnone ⊢
    have hlowbody : lower (lookupD secs sec) ≠ [] := by
      intro hc
      exact hbody (by simpa [lower] using hc)
    have hanyfalse : (terms.map lower).any (fun t => isSubstr t (lower (lookupD secs sec))) = false := by
      rw [List.any_eq_false]
      intro x hx
      obtain ⟨t, ht, rfl⟩ := List.mem_map.mp hx
      simp [hnone t ht]
    have hsome : (fun p : Str × List Str =>
        let body := lower (lookupD secs p.1)
        if body = [] then none
        else
          let termsL := p.2.map lower
          if termsL ≠ [] ∧ ¬ termsL.any (fun t => isSubstr t body) then
            some (Issue.mk (chars "missing_term") p.1
              (chars "Section " ++ [sq] ++ p.1 ++ [sq] ++ chars " should mention at least one of: " ++
                List.intercalate (chars ", ") termsL ++ chars "."))
          else none) (sec, terms)
        = some (Issue.mk (chars "missing_term") sec
            (chars "Section " ++ [sq] ++ sec ++ [sq] ++ chars " should mention at least one of: " ++
              List.intercalate (chars ", ") (terms.map lower) ++ chars ".")) := by
      simp only
      rw [if_neg hlowbody, if_pos]
      constructor
      · simpa using hterms
      · rw [hanyfalse]
        simp
    have hmemIssue : Issue.mk (chars "missing_term") sec
        (chars "Section " ++ [sq] ++ sec ++ [sq] ++ chars " should mention at least one of: " ++
          List.intercalate (chars ", ") (terms.map lower) ++ chars ".")
        ∈ qualityIssues text cfg secs := by
      unfold qualityIssues
      simp only [List.mem_append]
      refine Or.inl (Or.inr ?_)
      exact List.mem_filterMap.mpr ⟨(sec, terms), hmem, hsome⟩
    refine ⟨⟨_, hmemIssue, rfl, rfl⟩, ?_⟩
    rcases hqi : qualityIssues text cfg secs with _ | ⟨i0, rest⟩
    · rw [hqi] at hmemIssue
      cases hmemIssue
    · simp [hqi]
  · decide

/-- Witness for C7: the general statement applied to the scenario's
template, report, section and term set. -/
theorem c7_missing_term_issue_witness :
    ∃ r, (evaluate_report_quality scenarioReport cfgScenario = .ok r ∧
      (chars "Discussion", [chars "limitation"]) ∈ cfgScenario.quality.requiredTermsBySection ∧
      lookupD r.sections (chars "Discussion") ≠ [] ∧
      ([chars "limitation"] : List Str) ≠ [] ∧
      (∀ t ∈ [chars "limitation"],
        isSubstr (lower t) (lower (lookupD r.sections (chars "Discussion"))) = false)) ∧
    (∃ i ∈ r.issues, i.kind = chars "missing_term" ∧ i.sec = chars "Discussion") ∧
      r.ok = false := by
  refine ⟨_, ⟨rfl, by decide, by decide, by decide, by decide⟩, ?_⟩
  exact c7_missing_term_issue.1 scenarioReport cfgScenario _ (chars "Discussion")
    [chars "limitation"] rfl (by decide) (by decide) (by decide) (by decide)

/-! ### Case analyses of the orchestrator stages -/

theorem repairStage_skip (env : Env) (jid : Str) (cfg : TemplateCfg) (merged : Str)
    (ctx2 : Ctx) (sc : Nat → Bool) (st : MidSt)
    (h : cfg.writerFormat.isEmpty = true ∨
      (cfg.writerFormat.filter fun h => (strip (lookupD st.sections h)).isEmpty).isEmpty = true) :
    repairStage env jid cfg merged ctx2 sc st = .ok st := by
  unfold repairStage
  rcases h with h | h
  · rw [if_pos h]
  · by_cases h1 : cfg.writerFormat.isEmpty
    · rw [if_pos h1]
    · rw [if_neg h1, if_pos h]

theorem acceptRewrite_steps (st : MidSt) (w : AgentResult) :
    (acceptRewrite st w).steps = st.steps := by
  unfold acceptRewrite
  split <;> rfl

theorem acceptRewrite_checks (st : MidSt) (w : AgentResult) :
    (acceptRewrite st w).checks = st.checks := by
  unfold acceptRewrite
  split <;> rfl

theorem acceptRewrite_reviewText (st : MidSt) (w : AgentResult) :
    (acceptRewrite st w).reviewText = st.reviewText := by
  unfold acceptRewrite
  split <;> rfl

theorem acceptRewrite_figuresText (st : MidSt) (w : AgentResult) :
    (acceptRewrite st w).figuresText = st.figuresText := by
  unfold acceptRewrite
  split <;> rfl

theorem repairStage_runs (env : Env) (jid : Str) (cfg : TemplateCfg) (merged : Str)
    (ctx2 : Ctx) (sc : Nat → Bool) (st : MidSt)
    (hwf : ¬ cfg.writerFormat.isEmpty = true)
    (hmiss : ¬ (cfg.writerFormat.filter fun h => (strip (lookupD st.sections h)).isEmpty).isEmpty = true)
    (hc : sc st.checks = false) :
    ∃ st', repairStage env jid cfg merged ctx2 sc st = .ok st' ∧
      st'.steps = st.steps ++ [StepName.writerRepair] ∧ st'.checks = st.checks + 1 ∧
      st'.reviewText = st.reviewText ∧ st'.figuresText = st.figuresText := by
  unfold repairStage
  rw [if_neg hwf, if_neg hmiss, if_neg (by simp [hc])]
  exact ⟨_, rfl, by rw [acceptRewrite_steps], by rw [acceptRewrite_checks],
    by rw [acceptRewrite_reviewText], by rw [acceptRewrite_figuresText]⟩

theorem repairStage_cancel (env : Env) (jid : Str) (cfg : TemplateCfg) (merged : Str)
    (ctx2 : Ctx) (sc : Nat → Bool) (st : MidSt)
    (hwf : ¬ cfg.writerFormat.isEmpty = true)
    (hmiss : ¬ (cfg.writerFormat.filter fun h => (strip (lookupD st.sections h)).isEmpty).isEmpty = true)
    (hc : sc st.checks = true) :
    repairStage env jid cfg merged ctx2 sc st =
      .error (.cancelled cancelMsg, ⟨st.steps, st.checks + 1⟩) := by
  unfold repairStage
  rw [if_neg hwf, if_neg hmiss, if_pos (by simp [hc])]

theorem repairStage_cases (env : Env) (jid : Str) (cfg : TemplateCfg) (merged : Str)
    (ctx2 : Ctx) (sc : Nat → Bool) (st : MidSt) :
    (∃ st', repairStage env jid cfg merged ctx2 sc st = .ok st' ∧
      (st'.steps = st.steps ∨ st'.steps = st.steps ++ [StepName.writerRepair]) ∧
      st'.reviewText = st.reviewText ∧ st'.figuresText = st.figuresText) ∨
    repairStage env jid cfg merged ctx2 sc st =
      .error (.cancelled cancelMsg, ⟨st.steps, st.checks + 1⟩) := by
  by_cases h1 : cfg.writerFormat.isEmpty = true
  · exact Or.inl ⟨st, repairStage_skip _ _ _ _ _ _ _ (Or.inl h1), Or.inl rfl, rfl, rfl⟩
  · by_cases h2 : (cfg.writerFormat.filter fun h =>
        (strip (lookupD st.sections h)).isEmpty).isEmpty = true
    · exact Or.inl ⟨st, repairStage_skip _ _ _ _ _ _ _ (Or.inr h2), Or.inl rfl, rfl, rfl⟩
    · by_cases h3 : sc st.checks = true
      · exact Or.inr (repairStage_cancel _ _ _ _ _ _ _ h1 h2 h3)
      · obtain ⟨st', he, hs, _, hr, hf⟩ :=
          repairStage_runs env jid cfg merged ctx2 sc st h1 h2 (by simpa using h3)
        exact Or.inl ⟨st', he, Or.inr hs, hr, hf⟩

theorem reviewStage_cases (env : Env) (jid : Str) (ir : Bool) (cfg : TemplateCfg)
    (sc : Nat → Bool) (st : MidSt) :
    (∃ st', reviewStage env jid ir cfg sc st = .ok st' ∧
      (st'.steps = st.steps ∨ st'.steps = st.steps ++ [StepName.reviewer]) ∧
      st'.reportText = st.reportText ∧ st'.sections = st.sections ∧
      st'.figuresText = st.figuresText) ∨
    reviewStage env jid ir cfg sc st =
      .error (.cancelled cancelMsg, ⟨st.steps, st.checks + 1⟩) := by
  unfold reviewStage
  by_cases h1 : ir = true ∧ cfg.includeReview = true
  · rw [if_pos h1]
    by_cases h2 : sc st.checks = true
    · rw [if_pos h2]
      exact Or.inr rfl
    · rw [if_neg h2]
      dsimp only
      split
      · exact Or.inl ⟨_, rfl, Or.inr rfl, rfl, rfl, rfl⟩
      · exact Or.inl ⟨_, rfl, Or.inr rfl, rfl, rfl, rfl⟩
  · rw [if_neg h1]
    exact Or.inl ⟨st, rfl, Or.inl rfl, rfl, rfl, rfl⟩

theorem reviewStage_skip (env : Env) (jid : Str) (ir : Bool) (cfg : TemplateCfg)
    (sc : Nat → Bool) (st : MidSt) (h : ¬ (ir = true ∧ cfg.includeReview = true)) :
    reviewStage env jid ir cfg sc st = .ok st := by
  unfold reviewStage
  rw [if_neg h]

theorem diagramStage_cases (env : Env) (jid : Str) (cfg : TemplateCfg) (theoryText : Str)
    (dataSummary : Obj) (sc : Nat → Bool) (st : MidSt) :
    (∃ st', diagramStage env jid cfg theoryText dataSummary sc st = .ok st' ∧
      (st'.steps = st.steps ∨ st'.steps = st.steps ++ [StepName.diagram]) ∧
      st'.reportText = st.reportText ∧ st'.sections = st.sections ∧
      st'.reviewText = st.reviewText) ∨
    diagramStage env jid cfg theoryText dataSummary sc st =
      .error (.cancelled cancelMsg, ⟨st.steps, st.checks + 1⟩) := by
  unfold diagramStage
  by_cases h1 : cfg.includeFigures.getD true = true ∧ ¬ dataSummary.isEmpty = true
  · rw [if_pos h1]
    by_cases h2 : sc st.checks = true
    · rw [if_pos h2]
      exact Or.inr rfl
    · rw [if_neg h2]
      dsimp only
      split
      · exact Or.inl ⟨_, rfl, Or.inr rfl, rfl, rfl, rfl⟩
      · exact Or.inl ⟨_, rfl, Or.inr rfl, rfl, rfl, rfl⟩
  · rw [if_neg h1]
    exact Or.inl ⟨st, rfl, Or.inl rfl, rfl, rfl, rfl⟩

theorem diagramStage_runs (env : Env) (jid : Str) (cfg : TemplateCfg) (theoryText : Str)
    (dataSummary : Obj) (sc : Nat → Bool) (st : MidSt)
    (h1 : cfg.includeFigures.getD true = true) (h2 : ¬ dataSummary.isEmpty = true)
    (hc : sc st.checks = false) :
    ∃ st', diagramStage env jid cfg theoryText dataSummary sc st = .ok st' ∧
      st'.steps = st.steps ++ [StepName.diagram] := by
  unfold diagramStage
  rw [if_pos ⟨h1, h2⟩, if_neg (by simp [hc])]
  dsimp only
  split
  · exact ⟨_, rfl, rfl⟩
  · exact ⟨_, rfl, rfl⟩

theorem qualityStage_pass (env : Env) (jid : Str) (cfg : TemplateCfg) (merged : Str)
    (ctx2 : Ctx) (st : MidSt) (q : QReport)
    (hq : evaluate_report_quality st.reportText cfg = .ok q) (hok : q.ok = true) :
    qualityStage env jid cfg merged ctx2 st = .ok (q, st) := by
  unfold qualityStage
  rw [hq]
  simp [hok]

theorem qualityStage_cases (env : Env) (jid : Str) (cfg : TemplateCfg) (merged : Str)
    (ctx2 : Ctx) (st : MidSt) :
    (∃ q st3, qualityStage env jid cfg merged ctx2 st = .ok (q, st3) ∧
      (st3.steps = st.steps ∨ st3.steps = st.steps ++ [StepName.writerQualityFix]) ∧
      st3.reviewText = st.reviewText ∧ st3.figuresText = st.figuresText) ∨
    (∃ tr, qualityStage env jid cfg merged ctx2 st = .error (.crash, tr) ∧
      (tr.steps = st.steps ∨ tr.steps = st.steps ++ [StepName.writerQualityFix])) := by
  unfold qualityStage
  rcases h1 : evaluate_report_quality st.reportText cfg with e | q
  · exact Or.inr ⟨_, rfl, Or.inl rfl⟩
  · dsimp only
    by_cases hok : q.ok = true
    · rw [if_pos hok]
      exact Or.inl ⟨q, st, rfl, Or.inl rfl, rfl, rfl⟩
    · rw [if_neg hok]
      set stQ := acceptRewrite
        { st with steps := st.steps ++ [StepName.writerQualityFix] }
        (env.writer jid
          { ctx2 with extraInstructions := strip (merged ++ chars "\n\n" ++ build_quality_fix_prompt q.issues cfg) })
        with hstQ
      clear_value stQ
      have hsteps : stQ.steps = st.steps ++ [StepName.writerQualityFix] := by
        rw [hstQ, acceptRewrite_steps]
      have hrev : stQ.reviewText = st.reviewText := by
        rw [hstQ, acceptRewrite_reviewText]
      have hfig : stQ.figuresText = st.figuresText := by
        rw [hstQ, acceptRewrite_figuresText]
      rcases h2 : evaluate_report_quality stQ.reportText cfg with e2 | q2
      · exact Or.inr ⟨_, rfl, Or.inr hsteps⟩
      · exact Or.inl ⟨q2, stQ, rfl, Or.inr hsteps, hrev, hfig⟩

theorem qualityStage_no_crash (env : Env) (jid : Str) (cfg : TemplateCfg) (merged : Str)
    (ctx2 : Ctx) (st : MidSt)
    (h : ∀ t, ∃ q, evaluate_report_quality t cfg = .ok q) :
    ∃ q st3, qualityStage env jid cfg merged ctx2 st = .ok (q, st3) ∧
      (st3.steps = st.steps ∨ st3.steps = st.steps ++ [StepName.writerQualityFix]) ∧
      st3.reviewText = st.reviewText ∧ st3.figuresText = st.figuresText := by
  unfold qualityStage
  obtain ⟨q, hq⟩ := h st.reportText
  rw [hq]
  dsimp only
  by_cases hok : q.ok = true
  · rw [if_pos hok]
    exact ⟨q, st, rfl, Or.inl rfl, rfl, rfl⟩
  · rw [if_neg hok]
    set stQ := acceptRewrite
      { st with steps := st.steps ++ [StepName.writerQualityFix] }
      (env.writer jid
        { ctx2 with extraInstructions := strip (merged ++ chars "\n\n" ++ build_quality_fix_prompt q.issues cfg) })
      with hstQ
    clear_value stQ
    have hsteps : stQ.steps = st.steps ++ [StepName.writerQualityFix] := by
      rw [hstQ, acceptRewrite_steps]
    have hrev : stQ.reviewText = st.reviewText := by
      rw [hstQ, acceptRewrite_reviewText]
    have hfig : stQ.figuresText = st.figuresText := by
      rw [hstQ, acceptRewrite_figuresText]
    obtain ⟨q2, hq2⟩ := h stQ.reportText
    rw [hq2]
    exact ⟨q2, stQ, rfl, Or.inr hsteps, hrev, hfig⟩

theorem repairStage_nocancel (env : Env) (jid : Str) (cfg : TemplateCfg) (merged : Str)
    (ctx2 : Ctx) (sc : Nat → Bool) (st : MidSt) (hc : sc st.checks = false) :
    ∃ st', repairStage env jid cfg merged ctx2 sc st = .ok st' ∧
      (st'.steps = st.steps ∨ st'.steps = st.steps ++ [StepName.writerRepair]) ∧
      st'.reviewText = st.reviewText ∧ st'.figuresText = st.figuresText := by
  by_cases h1 : cfg.writerFormat.isEmpty = true
  · exact ⟨st, repairStage_skip _ _ _ _ _ _ _ (Or.inl h1), Or.inl rfl, rfl, rfl⟩
  · by_cases h2 : (cfg.writerFormat.filter fun h =>
        (strip (lookupD st.sections h)).isEmpty).isEmpty = true
    · exact ⟨st, repairStage_skip _ _ _ _ _ _ _ (Or.inr h2), Or.inl rfl, rfl, rfl⟩
    · obtain ⟨st', he, hs, _, hr, hf⟩ := repairStage_runs env jid cfg merged ctx2 sc st h1 h2 hc
      exact ⟨st', he, Or.inr hs, hr, hf⟩

theorem reviewStage_nocancel (env : Env) (jid : Str) (ir : Bool) (cfg : TemplateCfg)
    (sc : Nat → Bool) (st : MidSt) (hc : sc st.checks = false) :
    ∃ st', reviewStage env jid ir cfg sc st = .ok st' ∧
      (st'.steps = st.steps ∨ st'.steps = st.steps ++ [StepName.reviewer]) ∧
      st'.reportText = st.reportText ∧ st'.sections = st.sections ∧
      st'.figuresText = st.figuresText ∧
      (st'.reviewText = st.reviewText ∨
        ((env.reviewer jid st.reportText cfg).ok = true ∧
          st'.reviewText = (env.reviewer jid st.reportText cfg).payload.reviewText) ∨
        st'.reviewText = []) := by
  unfold reviewStage
  by_cases h1 : ir = true ∧ cfg.includeReview = true
  · rw [if_pos h1, if_neg (by simp [hc])]
    dsimp only
    by_cases h2 : (env.reviewer jid st.reportText cfg).ok = true
    · rw [if_pos h2]
      exact ⟨_, rfl, Or.inr rfl, rfl, rfl, rfl, Or.inr (Or.inl ⟨h2, rfl⟩)⟩
    · rw [if_neg h2]
      exact ⟨_, rfl, Or.inr rfl, rfl, rfl, rfl, Or.inr (Or.inr rfl)⟩
  · rw [if_neg h1]
    exact ⟨st, rfl, Or.inl rfl, rfl, rfl, rfl, Or.inl rfl⟩

theorem diagramStage_nocancel (env : Env) (jid : Str) (cfg : TemplateCfg) (theoryText : Str)
    (dataSummary : Obj) (sc : Nat → Bool) (st : MidSt) (hc : sc st.checks = false) :
    ∃ st', diagramStage env jid cfg theoryText dataSummary sc st = .ok st' ∧
      (st'.steps = st.steps ∨ st'.steps = st.steps ++ [StepName.diagram]) ∧
      st'.reportText = st.reportText ∧ st'.sections = st.sections ∧
      st'.reviewText = st.reviewText ∧
      (st'.figuresText = st.figuresText ∨
        ((env.diagram jid theoryText dataSummary cfg).ok = true ∧
          st'.figuresText = (env.diagram jid theoryText dataSummary cfg).payload.figuresText)) := by
  unfold diagramStage
  by_cases h1 : cfg.includeFigures.getD true = true ∧ ¬ dataSummary.isEmpty = true
  · rw [if_pos h1, if_neg (by simp [hc])]
    dsimp only
    by_cases h2 : (env.diagram jid theoryText dataSummary cfg).ok = true
    · rw [if_pos h2]
      exact ⟨_, rfl, Or.inr rfl, rfl, rfl, rfl, Or.inr ⟨h2, rfl⟩⟩
    · rw [if_neg h2]
      exact ⟨_, rfl, Or.inr rfl, rfl, rfl, rfl, Or.inl rfl⟩
  · rw [if_neg h1]
    exact ⟨st, rfl, Or.inl rfl, rfl, rfl, rfl, Or.inl rfl⟩

theorem reviewStage_cancel (env : Env) (jid : Str) (ir : Bool) (cfg : TemplateCfg)
    (sc : Nat → Bool) (st : MidSt) (h1 : ir = true ∧ cfg.includeReview = true)
    (hc : sc st.checks = true) :
    reviewStage env jid ir cfg sc st =
      .error (.cancelled cancelMsg, ⟨st.steps, st.checks + 1⟩) := by
  unfold reviewStage
  rw [if_pos h1, if_pos hc]

theorem diagramStage_cancel (env : Env) (jid : Str) (cfg : TemplateCfg)
    (theoryText : Str) (dataSummary : Obj) (sc : Nat → Bool) (st : MidSt)
    (h1 : cfg.includeFigures.getD true = true ∧ ¬ dataSummary.isEmpty = true)
    (hc : sc st.checks = true) :
    diagramStage env jid cfg theoryText dataSummary sc st =
      .error (.cancelled cancelMsg, ⟨st.steps, st.checks + 1⟩) := by
  unfold diagramStage
  rw [if_pos h1, if_pos hc]

theorem acceptRewrite_reportText (st : MidSt) (w : AgentResult) :
    (acceptRewrite st w).reportText = acceptText st.reportText w := by
  unfold acceptRewrite acceptText
  by_cases h : w.ok = true ∧ ¬ w.payload.reportText = []
  · rw [if_pos h, if_pos h]
  · rw [if_neg h, if_neg h]

theorem qualityStage_crash (env : Env) (jid : Str) (cfg : TemplateCfg) (merged : Str)
    (ctx2 : Ctx) (st : MidSt) (e : Str)
    (hq : evaluate_report_quality st.reportText cfg = .error e) :
    qualityStage env jid cfg merged ctx2 st = .error (.crash, ⟨st.steps, st.checks⟩) := by
  unfold qualityStage
  rw [hq]

theorem qualityStage_fail (env : Env) (jid : Str) (cfg : TemplateCfg) (merged : Str)
    (ctx2 : Ctx) (st : MidSt) (q : QReport)
    (hq : evaluate_report_quality st.reportText cfg = .ok q) (hok : ¬ q.ok = true) :
    (∃ q2 st4, qualityStage env jid cfg merged ctx2 st = .ok (q2, st4) ∧
      st4.steps = st.steps ++ [StepName.writerQualityFix]) ∨
    (∃ tr, qualityStage env jid cfg merged ctx2 st = .error (.crash, tr) ∧
      tr.steps = st.steps ++ [StepName.writerQualityFix]) := by
  unfold qualityStage
  rw [hq]
  dsimp only
  rw [if_neg hok]
  set stQ := acceptRewrite
    { st with steps := st.steps ++ [StepName.writerQualityFix] }
    (env.writer jid
      { ctx2 with extraInstructions := strip (merged ++ chars "\n\n" ++ build_quality_fix_prompt q.issues cfg) })
    with hstQ
  clear_value stQ
  have hsteps : stQ.steps = st.steps ++ [StepName.writerQualityFix] := by
    rw [hstQ, acceptRewrite_steps]
  rcases h2 : evaluate_report_quality stQ.reportText cfg with e2 | q2
  · exact Or.inr ⟨_, rfl, hsteps⟩
  · exact Or.inl ⟨q2, stQ, rfl, hsteps⟩

/-- C10: when the template configuration omits the `include_figures` key,
`run_pipeline` treats the diagram-suggestion step as enabled by default:
every run that is never cancelled, whose research, data and first writing
steps succeed, and whose data summary is non-empty, invokes the diagram
step even though the template never explicitly enabled it. -/
theorem c10_include_figures_default_on (env : Env) (jid manualText goal : Str)
    (csvPath : Option Str) (extra : Str) (cfg : TemplateCfg) (ir : Bool)
    (sc : Nat → Bool) (hsc : ∀ n, sc n = false)
    (hfig : cfg.includeFigures = none)
    (hr : (env.research jid (pipelineCtx manualText goal csvPath extra cfg)).ok = true)
    (hd : (env.data jid (pipelineCtx manualText goal csvPath extra cfg)).ok = true)
    (hds : ¬ (env.data jid (pipelineCtx manualText goal csvPath extra cfg)).payload.dataSummary.isEmpty = true)
    (hw : (env.writer jid (writerCtx env jid (pipelineCtx manualText goal csvPath extra cfg))).ok = true) :
    StepName.diagram ∈
      (run_pipeline env jid manualText goal csvPath extra cfg ir sc).2.steps := by
  unfold run_pipeline
  dsimp only
  rw [if_neg (by simp [hsc 0]), if_neg (by simp [hr]), if_neg (by simp [hsc 1]),
      if_neg (by simp [hd]), if_neg (by simp [hsc 2]), if_neg (by simp [hw])]
  set C := pipelineCtx manualText goal csvPath extra cfg with hC
  set X := writerCtx env jid C with hX
  set M := mergeInstructions cfg extra with hM
  set st0 : MidSt :=
    ⟨(env.writer jid X).payload.reportText, (env.writer jid X).payload.sections, [], [],
     [StepName.research, StepName.data, StepName.writer], 3⟩ with hst0
  obtain ⟨st1, he1, hs1, hrv1, hfg1⟩ := repairStage_nocancel env jid cfg M X sc st0 (hsc _)
  rw [he1]
  dsimp only
  obtain ⟨st2, he2, hs2, hrt2, hsec2, hfg2, hrv2⟩ :=
    reviewStage_nocancel env jid ir cfg sc st1 (hsc _)
  rw [he2]
  dsimp only
  obtain ⟨st3, he3, hs3⟩ := diagramStage_runs env jid cfg X.theoryText X.dataSummary sc st2
    (by rw [hfig]; rfl) hds (hsc _)
  rw [he3]
  dsimp only
  rcases qualityStage_cases env jid cfg M X st3 with
    ⟨q, st4, he4, hs4, hrv4, hfg4⟩ | ⟨tr, he4, hs4⟩
  · rw [he4]
    dsimp only
    rcases hs4 with h | h <;> rw [h, hs3] <;> simp
  · rw [he4]
    dsimp only
    rcases hs4 with h | h <;> rw [h, hs3] <;> simp

theorem c10_include_figures_default_on_witness :
    StepName.diagram ∈
      (run_pipeline envDiagram (chars "j") [] [] none [] cfgObjective false
        (fun _ => false)).2.steps :=
  c10_include_figures_default_on envDiagram (chars "j") [] [] none [] cfgObjective false
    (fun _ => false) (fun _ => rfl) rfl rfl rfl (by decide) (by decide)

/-- C3 counterexample: the quality-fix write is NOT preceded by a
cancellation check.  With a predicate that turns true from the fourth check
on (index 3), the run performs exactly 3 checks, the predicate is already
true at the quality-fix boundary, and yet the quality-fix write step is
invoked and the run completes without ever raising the cancellation
signal — refuting `before every step ... including the quality-fix write`. -/
theorem c3_counterexample :
    (run_pipeline envShortObjective (chars "j") [] [] none [] cfgShortObjective false
        (fun n => decide (3 ≤ n))).2 =
      ⟨[StepName.research, StepName.data, StepName.writer, StepName.writerQualityFix], 3⟩ ∧
    (fun n : Nat => decide (3 ≤ n)) 3 = true ∧
    ¬ (run_pipeline envShortObjective (chars "j") [] [] none [] cfgShortObjective false
        (fun n => decide (3 ≤ n))).1 =
      Except.error (PipeErr.cancelled cancelMsg) := by
  decide

/-- C3 (amended): the cancellation predicate is consulted before the
research, data, first-write, write-repair, review and diagram steps;
whenever it returns true at one of these consulted boundaries the pipeline
immediately raises the cancellation signal — `PipeErr.cancelled`,
distinguishable from every ordinary fatal step error — without invoking
the next step.  In the spec's scenario, a predicate that turns true after
research and before data stops the run with the cancellation signal and a
trace in which the data step never ran.  The quality-fix write is the one
boundary without such a check (see the counterexample). -/
theorem c3_cancellation_at_consulted_boundaries (env : Env) (jid manualText goal : Str)
    (csvPath : Option Str) (extra : Str) (cfg : TemplateCfg) (ir : Bool) (sc : Nat → Bool) :
    (sc 0 = true →
      run_pipeline env jid manualText goal csvPath extra cfg ir sc =
        (.error (.cancelled cancelMsg), ⟨[], 1⟩)) ∧
    (sc 0 = false →
      (env.research jid (pipelineCtx manualText goal csvPath extra cfg)).ok = true →
      sc 1 = true →
      run_pipeline env jid manualText goal csvPath extra cfg ir sc =
        (.error (.cancelled cancelMsg), ⟨[StepName.research], 2⟩)) ∧
    (sc 0 = false →
      (env.research jid (pipelineCtx manualText goal csvPath extra cfg)).ok = true →
      sc 1 = false →
      (env.data jid (pipelineCtx manualText goal csvPath extra cfg)).ok = true →
      sc 2 = true →
      run_pipeline env jid manualText goal csvPath extra cfg ir sc =
        (.error (.cancelled cancelMsg), ⟨[StepName.research, StepName.data], 3⟩)) ∧
    (sc 0 = false →
      (env.research jid (pipelineCtx manualText goal csvPath extra cfg)).ok = true →
      sc 1 = false →
      (env.data jid (pipelineCtx manualText goal csvPath extra cfg)).ok = true →
      sc 2 = false →
      (env.writer jid (writerCtx env jid (pipelineCtx manualText goal csvPath extra cfg))).ok = true →
      ¬ cfg.writerFormat.isEmpty = true →
      ¬ (cfg.writerFormat.filter fun h =>
        (strip (lookupD (env.writer jid (writerCtx env jid
          (pipelineCtx manualText goal csvPath extra cfg))).payload.sections h)).isEmpty).isEmpty = true →
      sc 3 = true →
      run_pipeline env jid manualText goal csvPath extra cfg ir sc =
        (.error (.cancelled cancelMsg),
         ⟨[StepName.research, StepName.data, StepName.writer], 4⟩)) ∧
    (sc 0 = false →
      (env.research jid (pipelineCtx manualText goal csvPath extra cfg)).ok = true →
      sc 1 = false →
      (env.data jid (pipelineCtx manualText goal csvPath extra cfg)).ok = true →
      sc 2 = false →
      (env.writer jid (writerCtx env jid (pipelineCtx manualText goal csvPath extra cfg))).ok = true →
      (cfg.writerFormat.filter fun h =>
        (strip (lookupD (env.writer jid (writerCtx env jid
          (pipelineCtx manualText goal csvPath extra cfg))).payload.sections h)).isEmpty).isEmpty = true →
      ir = true → cfg.includeReview = true →
      sc 3 = true →
      run_pipeline env jid manualText goal csvPath extra cfg ir sc =
        (.error (.cancelled cancelMsg),
         ⟨[StepName.research, StepName.data, StepName.writer], 4⟩)) ∧
    (sc 0 = false →
      (env.research jid (pipelineCtx manualText goal csvPath extra cfg)).ok = true →
      sc 1 = false →
      (env.data jid (pipelineCtx manualText goal csvPath extra cfg)).ok = true →
      sc 2 = false →
      (env.writer jid (writerCtx env jid (pipelineCtx manualText goal csvPath extra cfg))).ok = true →
      (cfg.writerFormat.filter fun h =>
        (strip (lookupD (env.writer jid (writerCtx env jid
          (pipelineCtx manualText goal csvPath extra cfg))).payload.sections h)).isEmpty).isEmpty = true →
      ¬ (ir = true ∧ cfg.includeReview = true) →
      cfg.includeFigures.getD true = true →
      ¬ (env.data jid (pipelineCtx manualText goal csvPath extra cfg)).payload.dataSummary.isEmpty = true →
      sc 3 = true →
      run_pipeline env jid manualText goal csvPath extra cfg ir sc =
        (.error (.cancelled cancelMsg),
         ⟨[StepName.research, StepName.data, StepName.writer], 4⟩)) ∧
    (∀ s r, PipeErr.cancelled cancelMsg ≠ stepFatal s r) := by
  refine ⟨?_, ?_, ?_, ?_, ?_, ?_, ?_⟩
  · intro h0
    unfold run_pipeline
    dsimp only
    rw [if_pos h0]
  · intro h0 hrok h1
    unfold run_pipeline
    dsimp only
    rw [if_neg (by simp [h0]), if_neg (by simp [hrok]), if_pos h1]
  · intro h0 hrok h1 hdok h2
    unfold run_pipeline
    dsimp only
    rw [if_neg (by simp [h0]), if_neg (by simp [hrok]), if_neg (by simp [h1]),
        if_neg (by simp [hdok]), if_pos h2]
  · intro h0 hrok h1 hdok h2 hwok hwf hmiss h3
    unfold run_pipeline
    dsimp only
    rw [if_neg (by simp [h0]), if_neg (by simp [hrok]), if_neg (by simp [h1]),
        if_neg (by simp [hdok]), if_neg (by simp [h2]), if_neg (by simp [hwok])]
    set C := pipelineCtx manualText goal csvPath extra cfg with hC
    set X := writerCtx env jid C with hX
    set M := mergeInstructions cfg extra with hM
    set st0 : MidSt :=
      ⟨(env.writer jid X).payload.reportText, (env.writer jid X).payload.sections, [], [],
       [StepName.research, StepName.data, StepName.writer], 3⟩ with hst0
    rw [repairStage_cancel env jid cfg M X sc st0 hwf
      (show ¬ (cfg.writerFormat.filter fun h =>
        (strip (lookupD st0.sections h)).isEmpty).isEmpty = true from hmiss) h3]
  · intro h0 hrok h1 hdok h2 hwok hnomiss hir hirc h3
    unfold run_pipeline
    dsimp only
    rw [if_neg (by simp [h0]), if_neg (by simp [hrok]), if_neg (by simp [h1]),
        if_neg (by simp [hdok]), if_neg (by simp [h2]), if_neg (by simp [hwok])]
    set C := pipelineCtx manualText goal csvPath extra cfg with hC
    set X := writerCtx env jid C with hX
    set M := mergeInstructions cfg extra with hM
    set st0 : MidSt :=
      ⟨(env.writer jid X).payload.reportText, (env.writer jid X).payload.sections, [], [],
       [StepName.research, StepName.data, StepName.writer], 3⟩ with hst0
    rw [repairStage_skip env jid cfg M X sc st0 (Or.inr
      (show (cfg.writerFormat.filter fun h =>
        (strip (lookupD st0.sections h)).isEmpty).isEmpty = true from hnomiss))]
    dsimp only
    rw [reviewStage_cancel env jid ir cfg sc st0 ⟨hir, hirc⟩ h3]
  · intro h0 hrok h1 hdok h2 hwok hnomiss hnorev hfig hds h3
    unfold run_pipeline
    dsimp only
    rw [if_neg (by simp [h0]), if_neg (by simp [hrok]), if_neg (by simp [h1]),
        if_neg (by simp [hdok]), if_neg (by simp [h2]), if_neg (by simp [hwok])]
    set C := pipelineCtx manualText goal csvPath extra cfg with hC
    set X := writerCtx env jid C with hX
    set M := mergeInstructions cfg extra with hM
    set st0 : MidSt :=
      ⟨(env.writer jid X).payload.reportText, (env.writer jid X).payload.sections, [], [],
       [StepName.research, StepName.data, StepName.writer], 3⟩ with hst0
    rw [repairStage_skip env jid cfg M X sc st0 (Or.inr
      (show (cfg.writerFormat.filter fun h =>
        (strip (lookupD st0.sections h)).isEmpty).isEmpty = true from hnomiss))]
    dsimp only
    rw [reviewStage_skip env jid ir cfg sc st0 hnorev]
    dsimp only
    rw [diagramStage_cancel env jid cfg X.theoryText X.dataSummary sc st0
      ⟨hfig, show ¬ X.dataSummary.isEmpty = true from hds⟩ h3]
  · intro s r
    unfold stepFatal
    split <;> exact fun h => PipeErr.noConfusion h

theorem c3_cancellation_at_consulted_boundaries_witness :
    run_pipeline envHello (chars "j") [] [] none [] cfgObjective false
      (fun n => decide (n = 1)) =
      (.error (.cancelled cancelMsg), ⟨[StepName.research], 2⟩) ∧
    run_pipeline envShortObjective (chars "j") [] [] none [] cfgReview true
      (fun n => decide (3 ≤ n)) =
      (.error (.cancelled cancelMsg),
       ⟨[StepName.research, StepName.data, StepName.writer], 4⟩) :=
  ⟨(c3_cancellation_at_consulted_boundaries envHello (chars "j") [] [] none [] cfgObjective
      false (fun n => decide (n = 1))).2.1 rfl rfl rfl,
   (c3_cancellation_at_consulted_boundaries envShortObjective (chars "j") [] [] none []
      cfgReview true (fun n => decide (3 ≤ n))).2.2.2.2.1 rfl rfl rfl rfl rfl (by decide)
      (by decide) rfl rfl rfl⟩

/-- C2 counterexample: with a writer that never produces the required
`Objective` header, the claim's own hypothesis holds — the required
section is empty after the first write — yet the writing step is invoked
three times: the original call, the structural repair call, and a third
quality-fix call, refuting `exactly twice, never three times`. -/
theorem c2_counterexample :
    (¬ cfgObjective.writerFormat.isEmpty = true) ∧
    (strip (lookupD (envHello.writer (chars "j")
        (writerCtx envHello (chars "j")
          (pipelineCtx [] [] none [] cfgObjective))).payload.sections
        (chars "Objective"))).isEmpty = true ∧
    writerCalls (run_pipeline envHello (chars "j") [] [] none [] cfgObjective false
        (fun _ => false)).2.steps = 3 := by
  decide

/-- C2 (amended): in a never-cancelled run whose research, data and first
writing steps succeed, when the template names required headers and some
required header's section is empty or whitespace-only after the first
write, the structural repair pass re-invokes the writer exactly once — the
original and the repair write each occur exactly once, never a second
repair — and then exactly one additional quality-fix write occurs when the
quality gate fails (without raising) on the report text in effect after
the repair, and none when it passes: two or three writer invocations in
total, not always exactly two. -/
theorem c2_repair_exactly_once (env : Env) (jid manualText goal : Str)
    (csvPath : Option Str) (extra : Str) (cfg : TemplateCfg) (ir : Bool)
    (sc : Nat → Bool) (hsc : ∀ n, sc n = false)
    (hr : (env.research jid (pipelineCtx manualText goal csvPath extra cfg)).ok = true)
    (hd : (env.data jid (pipelineCtx manualText goal csvPath extra cfg)).ok = true)
    (hw : (env.writer jid (writerCtx env jid (pipelineCtx manualText goal csvPath extra cfg))).ok = true)
    (hwf : ¬ cfg.writerFormat.isEmpty = true)
    (hmiss : ¬ (cfg.writerFormat.filter fun h =>
        (strip (lookupD (env.writer jid (writerCtx env jid
          (pipelineCtx manualText goal csvPath extra cfg))).payload.sections h)).isEmpty).isEmpty = true) :
    (run_pipeline env jid manualText goal csvPath extra cfg ir sc).2.steps.count
        StepName.writer = 1 ∧
    (run_pipeline env jid manualText goal csvPath extra cfg ir sc).2.steps.count
        StepName.writerRepair = 1 ∧
    (gateRaises (acceptText
        (env.writer jid (writerCtx env jid
          (pipelineCtx manualText goal csvPath extra cfg))).payload.reportText
        (env.writer jid { writerCtx env jid (pipelineCtx manualText goal csvPath extra cfg) with
          extraInstructions := strip (mergeInstructions cfg extra ++ chars "\n\n" ++
            repairPrompt (cfg.writerFormat.filter fun h =>
              (strip (lookupD (env.writer jid (writerCtx env jid
                (pipelineCtx manualText goal csvPath extra cfg))).payload.sections h)).isEmpty)
              cfg) })) cfg = false →
      (run_pipeline env jid manualText goal csvPath extra cfg ir sc).2.steps.count
          StepName.writerQualityFix =
        if gatePasses (acceptText
            (env.writer jid (writerCtx env jid
              (pipelineCtx manualText goal csvPath extra cfg))).payload.reportText
            (env.writer jid { writerCtx env jid (pipelineCtx manualText goal csvPath extra cfg) with
              extraInstructions := strip (mergeInstructions cfg extra ++ chars "\n\n" ++
                repairPrompt (cfg.writerFormat.filter fun h =>
                  (strip (lookupD (env.writer jid (writerCtx env jid
                    (pipelineCtx manualText goal csvPath extra cfg))).payload.sections h)).isEmpty)
                  cfg) })) cfg = true then 0 else 1) ∧
    (run_pipeline env jid manualText goal csvPath extra cfg ir sc).2.steps.count
        StepName.writerQualityFix ≤ 1 := by
  unfold run_pipeline
  dsimp only
  rw [if_neg (by simp [hsc 0]), if_neg (by simp [hr]), if_neg (by simp [hsc 1]),
      if_neg (by simp [hd]), if_neg (by simp [hsc 2]), if_neg (by simp [hw])]
  set C := pipelineCtx manualText goal csvPath extra cfg with hC
  set X := writerCtx env jid C with hX
  set M := mergeInstructions cfg extra with hM
  set st0 : MidSt :=
    ⟨(env.writer jid X).payload.reportText, (env.writer jid X).payload.sections, [], [],
     [StepName.research, StepName.data, StepName.writer], 3⟩ with hst0
  have he1 : repairStage env jid cfg M X sc st0 = .ok (acceptRewrite
      { st0 with steps := st0.steps ++ [StepName.writerRepair], checks := st0.checks + 1 }
      (env.writer jid { X with extraInstructions := strip (M ++ chars "\n\n" ++
        repairPrompt (cfg.writerFormat.filter fun h =>
          (strip (lookupD st0.sections h)).isEmpty) cfg) })) := by
    unfold repairStage
    dsimp only
    rw [if_neg hwf, if_neg (show ¬ (cfg.writerFormat.filter fun h =>
        (strip (lookupD st0.sections h)).isEmpty).isEmpty = true from hmiss),
      if_neg (by simp [show sc st0.checks = false from hsc 3])]
  rw [he1]
  dsimp only
  set st1 := acceptRewrite
    { st0 with steps := st0.steps ++ [StepName.writerRepair], checks := st0.checks + 1 }
    (env.writer jid { X with extraInstructions := strip (M ++ chars "\n\n" ++
      repairPrompt (cfg.writerFormat.filter fun h =>
        (strip (lookupD st0.sections h)).isEmpty) cfg) }) with hst1
  have hs1 : st1.steps = st0.steps ++ [StepName.writerRepair] := by
    rw [hst1, acceptRewrite_steps]
  have hrt1 : st1.reportText = acceptText st0.reportText
      (env.writer jid { X with extraInstructions := strip (M ++ chars "\n\n" ++
        repairPrompt (cfg.writerFormat.filter fun h =>
          (strip (lookupD st0.sections h)).isEmpty) cfg) }) := by
    rw [hst1, acceptRewrite_reportText]
  obtain ⟨st2, he2, hs2, hrt2, hsec2, hfg2, hrv2⟩ :=
    reviewStage_nocancel env jid ir cfg sc st1 (hsc _)
  rw [he2]
  dsimp only
  obtain ⟨st3, he3, hs3, hrt3, hsec3, hrv3, hfg3⟩ :=
    diagramStage_nocancel env jid cfg X.theoryText X.dataSummary sc st2 (hsc _)
  rw [he3]
  dsimp only
  have hcount : st3.steps.count StepName.writer = 1 ∧
      st3.steps.count StepName.writerRepair = 1 ∧
      st3.steps.count StepName.writerQualityFix = 0 := by
    rcases hs3 with h3 | h3 <;> rcases hs2 with h2 | h2 <;>
      rw [h3, h2, hs1, hst0] <;> dsimp only <;>
      exact ⟨by decide, by decide, by decide⟩
  have hpost : st3.reportText = acceptText
      (env.writer jid X).payload.reportText
      (env.writer jid { X with extraInstructions := strip (M ++ chars "\n\n" ++
        repairPrompt (cfg.writerFormat.filter fun h =>
          (strip (lookupD (env.writer jid X).payload.sections h)).isEmpty) cfg) }) := by
    rw [hrt3, hrt2]
    exact hrt1
  rcases hq : evaluate_report_quality st3.reportText cfg with e | q
  · rw [qualityStage_crash env jid cfg M X st3 e hq]
    dsimp only
    refine ⟨hcount.1, hcount.2.1, ?_, ?_⟩
    · intro hgr
      exfalso
      unfold gateRaises at hgr
      rw [← hpost, hq] at hgr
      simp at hgr
    · rw [hcount.2.2]
      decide
  · by_cases hok : q.ok = true
    · rw [qualityStage_pass env jid cfg M X st3 q hq hok]
      dsimp only
      refine ⟨hcount.1, hcount.2.1, ?_, ?_⟩
      · intro _
        have hgp : gatePasses (acceptText
            (env.writer jid X).payload.reportText
            (env.writer jid { X with extraInstructions := strip (M ++ chars "\n\n" ++
              repairPrompt (cfg.writerFormat.filter fun h =>
                (strip (lookupD (env.writer jid X).payload.sections h)).isEmpty) cfg) }))
            cfg = true := by
          unfold gatePasses
          rw [← hpost, hq]
          exact hok
        rw [hgp, if_pos rfl]
        exact hcount.2.2
      · rw [hcount.2.2]
        decide
    · have hgp : gatePasses (acceptText
          (env.writer jid X).payload.reportText
          (env.writer jid { X with extraInstructions := strip (M ++ chars "\n\n" ++
            repairPrompt (cfg.writerFormat.filter fun h =>
              (strip (lookupD (env.writer jid X).payload.sections h)).isEmpty) cfg) }))
          cfg = false := by
        unfold gatePasses
        rw [← hpost, hq]
        dsimp only
        simpa using hok
      rcases qualityStage_fail env jid cfg M X st3 q hq hok with
        ⟨q2, st4, he4, hs4⟩ | ⟨tr, he4, hs4⟩ <;>
        rw [he4] <;> dsimp only <;>
        refine ⟨?_, ?_, ?_, ?_⟩
      · rw [hs4, List.count_append, hcount.1]
        decide
      · rw [hs4, List.count_append, hcount.2.1]
        decide
      · intro _
        rw [hgp, if_neg (by simp), hs4, List.count_append, hcount.2.2]
        decide
      · rw [hs4, List.count_append, hcount.2.2]
        decide
      · rw [hs4, List.count_append, hcount.1]
        decide
      · rw [hs4, List.count_append, hcount.2.1]
        decide
      · intro _
        rw [hgp, if_neg (by simp), hs4, List.count_append, hcount.2.2]
        decide
      · rw [hs4, List.count_append, hcount.2.2]
        decide

theorem c2_repair_exactly_once_witness :
    (run_pipeline envHello (chars "j") [] [] none [] cfgObjective false
        (fun _ => false)).2.steps.count StepName.writer = 1 ∧
    (run_pipeline envHello (chars "j") [] [] none [] cfgObjective false
        (fun _ => false)).2.steps.count StepName.writerRepair = 1 ∧
    (run_pipeline envHello (chars "j") [] [] none [] cfgObjective false
        (fun _ => false)).2.steps.count StepName.writerQualityFix = 1 := by
  have h := c2_repair_exactly_once envHello (chars "j") [] [] none [] cfgObjective false
    (fun _ => false) (fun _ => rfl) rfl rfl (by decide) (by decide) (by decide)
  refine ⟨h.1, h.2.1, ?_⟩
  rw [h.2.2.1 (by decide)]
  decide

/-- C5 counterexample: the repair pass's notion of a missing section
(empty split body) and the quality gate's `missing_header` regex disagree.
With a writer emitting `A:` immediately followed by `B:` and a body, the
quality gate passes on the text produced by the first write, and yet the
writing step runs twice: section `A`'s split body is empty, so the
structural repair pass fires anyway. -/
theorem c5_counterexample :
    gatePasses (envEmptyA.writer (chars "j")
        (writerCtx envEmptyA (chars "j")
          (pipelineCtx [] [] none [] cfgAB))).payload.reportText cfgAB = true ∧
    writerCalls (run_pipeline envEmptyA (chars "j") [] [] none [] cfgAB false
        (fun _ => false)).2.steps = 2 := by
  decide

/-- C5 (amended): in a never-cancelled run whose research, data and first
writing steps succeed, if the structural repair pass finds no required
header with an empty split section and the quality gate passes on the text
produced by the first write, then the writing step is invoked exactly once
(repair and quality-fix are both skipped).  The gate-pass hypothesis alone
does not suffice, because the repair pass uses a different notion of
`missing` than the gate — see the counterexample. -/
theorem c5_gate_pass_single_write (env : Env) (jid manualText goal : Str)
    (csvPath : Option Str) (extra : Str) (cfg : TemplateCfg) (ir : Bool)
    (sc : Nat → Bool) (hsc : ∀ n, sc n = false)
    (hr : (env.research jid (pipelineCtx manualText goal csvPath extra cfg)).ok = true)
    (hd : (env.data jid (pipelineCtx manualText goal csvPath extra cfg)).ok = true)
    (hw : (env.writer jid (writerCtx env jid (pipelineCtx manualText goal csvPath extra cfg))).ok = true)
    (hnomiss : (cfg.writerFormat.filter fun h =>
        (strip (lookupD (env.writer jid (writerCtx env jid
          (pipelineCtx manualText goal csvPath extra cfg))).payload.sections h)).isEmpty).isEmpty = true)
    (hq : gatePasses (env.writer jid (writerCtx env jid
        (pipelineCtx manualText goal csvPath extra cfg))).payload.reportText cfg = true) :
    writerCalls (run_pipeline env jid manualText goal csvPath extra cfg ir sc).2.steps = 1 := by
  unfold gatePasses at hq
  unfold run_pipeline
  dsimp only
  rw [if_neg (by simp [hsc 0]), if_neg (by simp [hr]), if_neg (by simp [hsc 1]),
      if_neg (by simp [hd]), if_neg (by simp [hsc 2]), if_neg (by simp [hw])]
  set C := pipelineCtx manualText goal csvPath extra cfg with hC
  set X := writerCtx env jid C with hX
  set M := mergeInstructions cfg extra with hM
  set st0 : MidSt :=
    ⟨(env.writer jid X).payload.reportText, (env.writer jid X).payload.sections, [], [],
     [StepName.research, StepName.data, StepName.writer], 3⟩ with hst0
  rw [repairStage_skip env jid cfg M X sc st0 (Or.inr hnomiss)]
  dsimp only
  obtain ⟨st2, he2, hs2, hrt2, hsec2, hfg2, hrv2⟩ :=
    reviewStage_nocancel env jid ir cfg sc st0 (hsc _)
  rw [he2]
  dsimp only
  obtain ⟨st3, he3, hs3, hrt3, hsec3, hrv3, hfg3⟩ :=
    diagramStage_nocancel env jid cfg X.theoryText X.dataSummary sc st2 (hsc _)
  rw [he3]
  dsimp only
  rcases hqe : evaluate_report_quality (env.writer jid X).payload.reportText cfg with e | q
  · rw [hqe] at hq
    simp at hq
  · rw [hqe] at hq
    dsimp only at hq
    have hq3 : evaluate_report_quality st3.reportText cfg = .ok q := by
      rw [hrt3, hrt2]
      exact hqe
    rw [qualityStage_pass env jid cfg M X st3 q hq3 hq]
    dsimp only
    unfold writerCalls
    rcases hs3 with h3 | h3 <;> rcases hs2 with h2 | h2 <;>
      rw [h3, h2, hst0] <;> dsimp only <;> decide

theorem c5_gate_pass_single_write_witness :
    writerCalls (run_pipeline envGood (chars "j") [] [] none [] cfgAB false
        (fun _ => false)).2.steps = 1 :=
  c5_gate_pass_single_write envGood (chars "j") [] [] none [] cfgAB false
    (fun _ => false) (fun _ => rfl) rfl rfl (by decide) (by decide) (by decide)

/-- C6: error taxonomy.  A failing research, data, or first writing step
aborts the whole pipeline with a fatal error naming the failing step and
its underlying cause (conjuncts one to three; cancellation raises the
distinct cancellation signal, settled with C3); conversely, in a
never-cancelled run in which those three steps succeed (and the template's
required headers are trim-fixed, so the quality gate cannot raise), the
pipeline returns an aggregate, and a failing review or diagram step never
aborts it: the aggregate simply carries an empty review text or an empty
figures text for the failed step. -/
theorem c6_error_taxonomy (env : Env) (jid manualText goal : Str)
    (csvPath : Option Str) (extra : Str) (cfg : TemplateCfg) (ir : Bool)
    (sc : Nat → Bool) :
    (sc 0 = false →
      (env.research jid (pipelineCtx manualText goal csvPath extra cfg)).ok = false →
      run_pipeline env jid manualText goal csvPath extra cfg ir sc =
        (.error (stepFatal (chars "research")
            (env.research jid (pipelineCtx manualText goal csvPath extra cfg))),
         ⟨[StepName.research], 1⟩)) ∧
    (sc 0 = false →
      (env.research jid (pipelineCtx manualText goal csvPath extra cfg)).ok = true →
      sc 1 = false →
      (env.data jid (pipelineCtx manualText goal csvPath extra cfg)).ok = false →
      run_pipeline env jid manualText goal csvPath extra cfg ir sc =
        (.error (stepFatal (chars "data")
            (env.data jid (pipelineCtx manualText goal csvPath extra cfg))),
         ⟨[StepName.research, StepName.data], 2⟩)) ∧
    (sc 0 = false →
      (env.research jid (pipelineCtx manualText goal csvPath extra cfg)).ok = true →
      sc 1 = false →
      (env.data jid (pipelineCtx manualText goal csvPath extra cfg)).ok = true →
      sc 2 = false →
      (env.writer jid (writerCtx env jid (pipelineCtx manualText goal csvPath extra cfg))).ok = false →
      run_pipeline env jid manualText goal csvPath extra cfg ir sc =
        (.error (stepFatal (chars "writer")
            (env.writer jid (writerCtx env jid (pipelineCtx manualText goal csvPath extra cfg)))),
         ⟨[StepName.research, StepName.data, StepName.writer], 3⟩)) ∧
    ((∀ n, sc n = false) →
      (env.research jid (pipelineCtx manualText goal csvPath extra cfg)).ok = true →
      (env.data jid (pipelineCtx manualText goal csvPath extra cfg)).ok = true →
      (env.writer jid (writerCtx env jid (pipelineCtx manualText goal csvPath extra cfg))).ok = true →
      (∀ h ∈ cfg.writerFormat, strip h = h) →
      ∃ res, (run_pipeline env jid manualText goal csvPath extra cfg ir sc).1 = .ok res ∧
        ((∀ t, (env.reviewer jid t cfg).ok = false) → res.review = []) ∧
        ((∀ t d, (env.diagram jid t d cfg).ok = false) → res.figures = [])) := by
  refine ⟨?_, ?_, ?_, ?_⟩
  · intro h0 hrf
    unfold run_pipeline
    dsimp only
    rw [if_neg (by simp [h0]), if_pos (by simp [hrf])]
  · intro h0 hrok h1 hdf
    unfold run_pipeline
    dsimp only
    rw [if_neg (by simp [h0]), if_neg (by simp [hrok]), if_neg (by simp [h1]),
        if_pos (by simp [hdf])]
  · intro h0 hrok h1 hdok h2 hwf
    unfold run_pipeline
    dsimp only
    rw [if_neg (by simp [h0]), if_neg (by simp [hrok]), if_neg (by simp [h1]),
        if_neg (by simp [hdok]), if_neg (by simp [h2]), if_pos (by simp [hwf])]
  · intro hsc hr hd hw hfix
    unfold run_pipeline
    dsimp only
    rw [if_neg (by simp [hsc 0]), if_neg (by simp [hr]), if_neg (by simp [hsc 1]),
        if_neg (by simp [hd]), if_neg (by simp [hsc 2]), if_neg (by simp [hw])]
    set C := pipelineCtx manualText goal csvPath extra cfg with hC
    set X := writerCtx env jid C with hX
    set M := mergeInstructions cfg extra with hM
    set st0 : MidSt :=
      ⟨(env.writer jid X).payload.reportText, (env.writer jid X).payload.sections, [], [],
       [StepName.research, StepName.data, StepName.writer], 3⟩ with hst0
    obtain ⟨st1, he1, hs1, hrv1, hfg1⟩ := repairStage_nocancel env jid cfg M X sc st0 (hsc _)
    rw [he1]
    dsimp only
    obtain ⟨st2, he2, hs2, hrt2, hsec2, hfg2, hrv2⟩ :=
      reviewStage_nocancel env jid ir cfg sc st1 (hsc _)
    rw [he2]
    dsimp only
    obtain ⟨st3, he3, hs3, hrt3, hsec3, hrv3, hfg3⟩ :=
      diagramStage_nocancel env jid cfg X.theoryText X.dataSummary sc st2 (hsc _)
    rw [he3]
    dsimp only
    obtain ⟨q, st4, he4, hs4, hrv4, hfg4⟩ :=
      qualityStage_no_crash env jid cfg M X st3 (evaluate_total cfg hfix)
    rw [he4]
    dsimp only
    refine ⟨_, rfl, ?_, ?_⟩
    · intro hfail
      dsimp only
      rw [hrv4, hrv3]
      rcases hrv2 with h | ⟨hok, _⟩ | h
      · rw [h, hrv1, hst0]
      · simp [hfail st1.reportText] at hok
      · exact h
    · intro hfail
      dsimp only
      rw [hfg4]
      rcases hfg3 with h | ⟨hok, _⟩
      · rw [h, hfg2, hfg1, hst0]
      · simp [hfail X.theoryText X.dataSummary] at hok

/-! ### Intercalate and newline-split infrastructure for the round-trip -/

theorem intercalate_cons_ne (x : Char) (a : Str) (l : List Str) (h : l ≠ []) :
    List.intercalate [x] (a :: l) = a ++ x :: List.intercalate [x] l := by
  cases l with
  | nil => exact absurd rfl h
  | cons b t =>
    simp [List.intercalate, List.intersperse]

theorem intercalate_append_ne (x : Char) (A B : List Str) (hA : A ≠ []) (hB : B ≠ []) :
    List.intercalate [x] (A ++ B) =
      List.intercalate [x] A ++ x :: List.intercalate [x] B := by
  induction A with
  | nil => exact absurd rfl hA
  | cons a t ih =>
    cases t with
    | nil =>
      rw [List.singleton_append, intercalate_cons_ne x a B hB]
      simp [List.intercalate]
    | cons b t2 =>
      rw [List.cons_append, intercalate_cons_ne x a ((b :: t2) ++ B) (by simp),
          intercalate_cons_ne x a (b :: t2) (List.cons_ne_nil _ _),
          ih (List.cons_ne_nil _ _)]
      simp

theorem intercalate_replicate_nil (x : Char) (j : ℕ) :
    List.intercalate [x] (List.replicate (j + 1) ([] : Str)) = List.replicate j x := by
  induction j with
  | zero => rfl
  | succ n ih =>
    rw [List.replicate_succ, intercalate_cons_ne x [] _ (by simp), ih,
        List.nil_append, List.replicate_succ]

theorem flatMap_ne_nil {α : Type} (G : α → List Str) (hs : List α) (hhs : hs ≠ [])
    (hG : ∀ h ∈ hs, G h ≠ []) : hs.flatMap G ≠ [] := by
  cases hs with
  | nil => exact absurd rfl hhs
  | cons a t =>
    rw [List.flatMap_cons]
    intro hc
    exact hG a (List.mem_cons_self _ _) (List.append_eq_nil.mp hc).1

theorem intercalate_flatMap_congr {α : Type} (x : Char) (G1 G2 : α → List Str)
    (hs : List α)
    (h : ∀ a ∈ hs, G1 a ≠ [] ∧ G2 a ≠ [] ∧
      List.intercalate [x] (G1 a) = List.intercalate [x] (G2 a)) :
    List.intercalate [x] (hs.flatMap G1) = List.intercalate [x] (hs.flatMap G2) := by
  induction hs with
  | nil => rfl
  | cons a t ih =>
    obtain ⟨h1, h2, heq⟩ := h a (List.mem_cons_self _ _)
    have ht : ∀ b ∈ t, G1 b ≠ [] ∧ G2 b ≠ [] ∧
        List.intercalate [x] (G1 b) = List.intercalate [x] (G2 b) :=
      fun b hb => h b (List.mem_cons_of_mem _ hb)
    rw [List.flatMap_cons, List.flatMap_cons]
    cases t with
    | nil =>
      simp only [List.flatMap_nil, List.append_nil]
      exact heq
    | cons c t2 =>
      have hf1 : (c :: t2).flatMap G1 ≠ [] :=
        flatMap_ne_nil G1 _ (List.cons_ne_nil _ _) (fun b hb => (ht b hb).1)
      have hf2 : (c :: t2).flatMap G2 ≠ [] :=
        flatMap_ne_nil G2 _ (List.cons_ne_nil _ _) (fun b hb => (ht b hb).2.1)
      rw [intercalate_append_ne x _ _ h1 hf1, intercalate_append_ne x _ _ h2 hf2,
          heq, ih ht]

theorem splitNlAux_eq_nil_iff (t acc : Str) :
    splitNlAux t acc = [] ↔ t = [] ∧ acc = [] := by
  induction t generalizing acc with
  | nil =>
    by_cases h : acc = []
    · simp [splitNlAux, h]
    · simp [splitNlAux, h, List.isEmpty_iff]
  | cons c rest ih =>
    by_cases hc : c = '\n'
    · simp [splitNlAux, hc]
    · rw [show splitNlAux (c :: rest) acc = splitNlAux rest (c :: acc) by
        simp [splitNlAux, hc]]
      simp [ih]

theorem splitNlAux_no_nl (l acc : Str) (h : '\n' ∉ l) :
    splitNlAux l acc =
      if (acc.reverse ++ l).isEmpty then [] else [acc.reverse ++ l] := by
  induction l generalizing acc with
  | nil => simp [splitNlAux]
  | cons c rest ih =>
    have hc : ¬ c = '\n' := fun hc => h (hc ▸ List.mem_cons_self _ _)
    rw [show splitNlAux (c :: rest) acc = splitNlAux rest (c :: acc) by
      simp [splitNlAux, hc]]
    rw [ih _ (fun hm => h (List.mem_cons_of_mem _ hm))]
    simp

theorem splitNlAux_append (l y acc : Str) (h : '\n' ∉ l) :
    splitNlAux (l ++ '\n' :: y) acc = (acc.reverse ++ l) :: splitNlAux y [] := by
  induction l generalizing acc with
  | nil => simp [splitNlAux]
  | cons c rest ih =>
    have hc : ¬ c = '\n' := fun hc => h (hc ▸ List.mem_cons_self _ _)
    rw [List.cons_append, show splitNlAux (c :: (rest ++ '\n' :: y)) acc =
        splitNlAux (rest ++ '\n' :: y) (c :: acc) by simp [splitNlAux, hc]]
    rw [ih _ (fun hm => h (List.mem_cons_of_mem _ hm))]
    simp

theorem intercalate_splitNlAux (b : Str) :
    ∀ acc : Str, b.getLast? ≠ some '\n' →
    List.intercalate ['\n'] (splitNlAux b acc) = acc.reverse ++ b := by
  induction b with
  | nil =>
    intro acc _
    by_cases h : acc = []
    · simp [splitNlAux, h, List.intercalate]
    · simp [splitNlAux, h, List.isEmpty_iff, List.intercalate]
  | cons c rest ih =>
    intro acc hlast
    by_cases hc : c = '\n'
    · subst hc
      rw [show splitNlAux ('\n' :: rest) acc = acc.reverse :: splitNlAux rest [] by
        simp [splitNlAux]]
      cases rest with
      | nil => simp at hlast
      | cons d t =>
        rw [List.getLast?_cons_cons] at hlast
        have hne : splitNlAux (d :: t) [] ≠ [] := by
          rw [ne_eq, splitNlAux_eq_nil_iff]
          simp
        rw [intercalate_cons_ne '\n' _ _ hne, ih [] hlast]
        simp
    · rw [show splitNlAux (c :: rest) acc = splitNlAux rest (c :: acc) by
        simp [splitNlAux, hc]]
      have hlast2 : rest.getLast? ≠ some '\n' := by
        cases rest with
        | nil => simp
        | cons d t =>
          rw [List.getLast?_cons_cons] at hlast
          exact hlast
      rw [ih (c :: acc) hlast2]
      simp

theorem intercalate_splitNl (b : Str) (h : b.getLast? ≠ some '\n') :
    List.intercalate ['\n'] (splitNl b) = b :=
  intercalate_splitNlAux b [] h

theorem mem_splitNlAux_no_nl (b : Str) :
    ∀ acc : Str, '\n' ∉ acc → ∀ l ∈ splitNlAux b acc, '\n' ∉ l := by
  induction b with
  | nil =>
    intro acc hacc l hl
    by_cases h : acc = []
    · simp [splitNlAux, h] at hl
    · rw [show splitNlAux [] acc = [acc.reverse] by
        simp [splitNlAux, List.isEmpty_iff, h]] at hl
      rw [List.mem_singleton] at hl
      subst hl
      simpa using hacc
  | cons c rest ih =>
    intro acc hacc l hl
    by_cases hc : c = '\n'
    · subst hc
      rw [show splitNlAux ('\n' :: rest) acc = acc.reverse :: splitNlAux rest [] by
        simp [splitNlAux]] at hl
      rcases List.mem_cons.mp hl with h | h
      · subst h
        simpa using hacc
      · exact ih [] (by simp) l h
    · rw [show splitNlAux (c :: rest) acc = splitNlAux rest (c :: acc) by
        simp [splitNlAux, hc]] at hl
      refine ih (c :: acc) ?_ l hl
      intro hm
      rcases List.mem_cons.mp hm with h | h
      · exact hc h.symm
      · exact hacc h

theorem mem_splitNlAux_subset (b : Str) :
    ∀ acc : Str, ∀ l ∈ splitNlAux b acc, ∀ c ∈ l, c ∈ acc ∨ c ∈ b := by
  induction b with
  | nil =>
    intro acc l hl c hc
    by_cases h : acc = []
    · simp [splitNlAux, h] at hl
    · rw [show splitNlAux [] acc = [acc.reverse] by
        simp [splitNlAux, List.isEmpty_iff, h]] at hl
      rw [List.mem_singleton] at hl
      subst hl
      exact Or.inl (List.mem_reverse.mp hc)
  | cons d rest ih =>
    intro acc l hl c hc
    by_cases hd : d = '\n'
    · subst hd
      rw [show splitNlAux ('\n' :: rest) acc = acc.reverse :: splitNlAux rest [] by
        simp [splitNlAux]] at hl
      rcases List.mem_cons.mp hl with h | h
      · subst h
        exact Or.inl (List.mem_reverse.mp hc)
      · rcases ih [] l h c hc with h2 | h2
        · simp at h2
        · exact Or.inr (List.mem_cons_of_mem _ h2)
    · rw [show splitNlAux (d :: rest) acc = splitNlAux rest (d :: acc) by
        simp [splitNlAux, hd]] at hl
      rcases ih (d :: acc) l hl c hc with h2 | h2
      · rcases List.mem_cons.mp h2 with h3 | h3
        · exact Or.inr (h3 ▸ List.mem_cons_self _ _)
        · exact Or.inl h3
      · exact Or.inr (List.mem_cons_of_mem _ h2)

theorem splitNlAux_getLast (b : Str) :
    ∀ acc : Str, b.getLast? ≠ some '\n' → ¬ (b = [] ∧ acc = []) →
    ∃ l, (splitNlAux b acc).getLast? = some l ∧ l ≠ [] ∧
      l.getLast? = (acc.reverse ++ b).getLast? := by
  induction b with
  | nil =>
    intro acc _ hne
    have hacc : acc ≠ [] := fun h => hne ⟨rfl, h⟩
    rw [show splitNlAux [] acc = [acc.reverse] by
      simp [splitNlAux, List.isEmpty_iff, hacc]]
    exact ⟨acc.reverse, rfl, by simpa using hacc, by simp⟩
  | cons c rest ih =>
    intro acc hlast _
    by_cases hc : c = '\n'
    · subst hc
      cases rest with
      | nil => simp at hlast
      | cons d t =>
        rw [List.getLast?_cons_cons] at hlast
        rw [show splitNlAux ('\n' :: d :: t) acc =
          acc.reverse :: splitNlAux (d :: t) [] by simp [splitNlAux]]
        obtain ⟨l, h1, h2, h3⟩ := ih [] hlast (by simp)
        have hne2 : splitNlAux (d :: t) [] ≠ [] := by
          rw [ne_eq, splitNlAux_eq_nil_iff]
          simp
        refine ⟨l, ?_, h2, ?_⟩
        · rw [show acc.reverse :: splitNlAux (d :: t) [] =
            [acc.reverse] ++ splitNlAux (d :: t) [] from rfl,
            List.getLast?_append_of_ne_nil _ hne2]
          exact h1
        · rw [h3]
          simp only [List.reverse_nil, List.nil_append]
          rw [show acc.reverse ++ '\n' :: d :: t =
            (acc.reverse ++ ['\n']) ++ d :: t by simp,
            List.getLast?_append_of_ne_nil _ (List.cons_ne_nil _ _)]
    · rw [show splitNlAux (c :: rest) acc = splitNlAux rest (c :: acc) by
        simp [splitNlAux, hc]]
      have hlast2 : rest.getLast? ≠ some '\n' := by
        cases rest with
        | nil => simp
        | cons d t =>
          rw [List.getLast?_cons_cons] at hlast
          exact hlast
      obtain ⟨l, h1, h2, h3⟩ := ih (c :: acc) hlast2 (by simp)
      refine ⟨l, h1, h2, ?_⟩
      rw [h3]
      simp [List.append_assoc]

theorem splitNl_getLast (b : Str) (hb : b ≠ []) (h : b.getLast? ≠ some '\n') :
    ∃ l, (splitNl b).getLast? = some l ∧ l ≠ [] ∧ l.getLast? = b.getLast? := by
  obtain ⟨l, h1, h2, h3⟩ := splitNlAux_getLast b [] h (fun hp => hb hp.1)
  exact ⟨l, h1, h2, by simpa using h3⟩

theorem mem_intercalate (x : Char) (M : List Str) :
    ∀ c ∈ List.intercalate [x] M, c = x ∨ ∃ l ∈ M, c ∈ l := by
  induction M with
  | nil => intro c hc; simp [List.intercalate] at hc
  | cons a t ih =>
    intro c hc
    cases t with
    | nil =>
      rw [show List.intercalate [x] [a] = a by simp [List.intercalate]] at hc
      exact Or.inr ⟨a, List.mem_cons_self _ _, hc⟩
    | cons b t2 =>
      rw [intercalate_cons_ne x a _ (List.cons_ne_nil _ _)] at hc
      rcases List.mem_append.mp hc with h | h
      · exact Or.inr ⟨a, List.mem_cons_self _ _, h⟩
      · rcases List.mem_cons.mp h with h2 | h2
        · exact Or.inl h2
        · rcases ih c h2 with h3 | ⟨l, hl, hcl⟩
          · exact Or.inl h3
          · exact Or.inr ⟨l, List.mem_cons_of_mem _ hl, hcl⟩

theorem splitNl_intercalate (M : List Str) (hM : M ≠ [])
    (hnl : ∀ l ∈ M, '\n' ∉ l) (hlast : M.getLast? ≠ some []) :
    splitNl (List.intercalate ['\n'] M) = M := by
  induction M with
  | nil => exact absurd rfl hM
  | cons a t ih =>
    cases t with
    | nil =>
      rw [show List.intercalate ['\n'] [a] = a by simp [List.intercalate]]
      have ha : a ≠ [] := by
        intro h
        exact hlast (by rw [h]; rfl)
      rw [splitNl, splitNlAux_no_nl a [] (hnl a (List.mem_cons_self _ _))]
      simp [List.isEmpty_iff, ha]
    | cons b t2 =>
      rw [intercalate_cons_ne '\n' a _ (List.cons_ne_nil _ _)]
      rw [splitNl, splitNlAux_append a _ [] (hnl a (List.mem_cons_self _ _))]
      have ih2 := ih (List.cons_ne_nil _ _)
        (fun l hl => hnl l (List.mem_cons_of_mem _ hl))
        (by rw [List.getLast?_cons_cons] at hlast; exact hlast)
      rw [show splitNlAux (List.intercalate ['\n'] (b :: t2)) [] =
        splitNl (List.intercalate ['\n'] (b :: t2)) from rfl, ih2]
      simp

theorem getLast_decomp {α : Type} (M : List α) (l : α) (h : M.getLast? = some l) :
    ∃ A, M = A ++ [l] := by
  induction M with
  | nil => simp at h
  | cons a t ih =>
    cases t with
    | nil =>
      simp at h
      exact ⟨[], by simp [h]⟩
    | cons b t2 =>
      rw [List.getLast?_cons_cons] at h
      obtain ⟨A, hA⟩ := ih h
      exact ⟨a :: A, by rw [List.cons_append, ← hA]⟩

theorem intercalate_getLast (x : Char) (M : List Str) (l : Str)
    (hgl : M.getLast? = some l) (hlne : l ≠ []) :
    (List.intercalate [x] M).getLast? = l.getLast? := by
  obtain ⟨A, hA⟩ := getLast_decomp M l hgl
  subst hA
  cases A with
  | nil => simp [List.intercalate]
  | cons a t =>
    rw [intercalate_append_ne x (a :: t) [l] (List.cons_ne_nil _ _) (by simp),
        show List.intercalate [x] [l] = l by simp [List.intercalate],
        List.getLast?_append_of_ne_nil _ (List.cons_ne_nil _ _)]
    cases l with
    | nil => exact absurd rfl hlne
    | cons c r => rw [List.getLast?_cons_cons]

theorem intercalate_head (x : Char) (a : Str) (M0 : List Str) (ha : a ≠ []) :
    (List.intercalate [x] (a :: M0)).head? = a.head? := by
  cases M0 with
  | nil => simp [List.intercalate]
  | cons b t =>
    rw [intercalate_cons_ne x a _ (List.cons_ne_nil _ _), List.head?_append]
    cases a with
    | nil => exact absurd rfl ha
    | cons c r => simp

theorem strip_intercalate_core (M : List Str) (j : ℕ) (a : Str) (M0 : List Str)
    (hM : M = a :: M0) (ha : a ≠ [])
    (hhead : ∀ c, a.head? = some c → isSpace c = false)
    (hlast : ∃ l, M.getLast? = some l ∧ l ≠ [] ∧
      ∀ c, l.getLast? = some c → isSpace c = false) :
    strip (List.intercalate ['\n'] (M ++ List.replicate j [])) =
      List.intercalate ['\n'] M := by
  obtain ⟨l, hgl, hlne, hlc⟩ := hlast
  have hMne : M ≠ [] := by rw [hM]; exact List.cons_ne_nil _ _
  have hstripM : strip (List.intercalate ['\n'] M) = List.intercalate ['\n'] M := by
    unfold strip
    rw [rstrip_eq_self_of_getLast _ (fun c hc => hlc c (by
      rw [intercalate_getLast '\n' M l hgl hlne] at hc; exact hc))]
    exact lstrip_eq_self_of_head _ (fun c hc => hhead c (by
      rw [hM, intercalate_head '\n' a M0 ha] at hc; exact hc))
  cases j with
  | zero => simpa using hstripM
  | succ n =>
    rw [intercalate_append_ne '\n' M _ hMne (by simp),
        intercalate_replicate_nil '\n' n,
        show List.intercalate ['\n'] M ++ '\n' :: List.replicate n '\n' =
          List.intercalate ['\n'] M ++ List.replicate (n + 1) '\n' by
            rw [List.replicate_succ],
        strip_append_ws _ _ (by
          intro c hc
          rw [List.eq_of_mem_replicate hc]
          decide)]
    exact hstripM

theorem ownerOfR_unrec (rec : Str → Option Str) (W : List Str) :
    ∀ (rest : List Str) (cur : Option Str), (∀ l ∈ W, rec l = none) →
    ownerOfR rec (W ++ rest) cur =
      W.map (fun l => (cur, l)) ++ ownerOfR rec rest cur := by
  induction W with
  | nil => intro rest cur _; rfl
  | cons w t ih =>
    intro rest cur h
    rw [List.cons_append, show ownerOfR rec (w :: (t ++ rest)) cur =
      (cur, w) :: ownerOfR rec (t ++ rest) cur by
        simp [ownerOfR, h w (List.mem_cons_self _ _)]]
    rw [ih rest cur (fun l hl => h l (List.mem_cons_of_mem _ hl))]
    rfl

theorem ownerOfR_blocks (rec : Str → Option Str) (blocks : List (Str × List Str)) :
    ∀ cur : Option Str,
    (∀ p ∈ blocks, rec (p.1 ++ [':']) = some p.1) →
    (∀ p ∈ blocks, ∀ l ∈ p.2, rec l = none) →
    ownerOfR rec (blocks.flatMap fun p => (p.1 ++ [':']) :: p.2) cur =
      blocks.flatMap fun p => p.2.map fun l => (some p.1, l) := by
  induction blocks with
  | nil => intro cur _ _; rfl
  | cons p rest ih =>
    intro cur hrec hno
    rw [List.flatMap_cons, List.flatMap_cons, List.cons_append]
    have h1 : ownerOfR rec ((p.1 ++ [':']) ::
        (p.2 ++ rest.flatMap fun q => (q.1 ++ [':']) :: q.2)) cur =
        ownerOfR rec (p.2 ++ rest.flatMap fun q => (q.1 ++ [':']) :: q.2)
          (some p.1) := by
      simp [ownerOfR, hrec p (List.mem_cons_self _ _)]
    rw [h1, ownerOfR_unrec rec p.2 _ (some p.1) (hno p (List.mem_cons_self _ _)),
        ih (some p.1) (fun q hq => hrec q (List.mem_cons_of_mem _ hq))
          (fun q hq => hno q (List.mem_cons_of_mem _ hq))]

theorem filter_blocks_none (blocks : List (Str × List Str)) (k : Str)
    (h : ∀ p ∈ blocks, ¬ p.1 = k) :
    ((blocks.flatMap fun p => p.2.map fun l => (some p.1, l)).filter
      fun q => decide (q.1 = some k)) = [] := by
  induction blocks with
  | nil => rfl
  | cons p rest ih =>
    rw [List.flatMap_cons, List.filter_append,
        ih (fun q hq => h q (List.mem_cons_of_mem _ hq)), List.append_nil]
    refine List.filter_eq_nil_iff.mpr ?_
    intro q hq
    obtain ⟨l, _, hql⟩ := List.mem_map.mp hq
    rw [← hql]
    simp only [decide_eq_true_eq]
    intro hc
    exact h p (List.mem_cons_self _ _) (Option.some.inj hc)

theorem filter_blocks (blocks : List (Str × List Str)) (k : Str) (W : List Str)
    (hmem : (k, W) ∈ blocks) (hnd : (blocks.map Prod.fst).Nodup) :
    (((blocks.flatMap fun p => p.2.map fun l => (some p.1, l)).filter
      fun q => decide (q.1 = some k)).map Prod.snd) = W := by
  induction blocks with
  | nil => simp at hmem
  | cons p rest ih =>
    rw [List.map_cons, List.nodup_cons] at hnd
    rw [List.flatMap_cons, List.filter_append, List.map_append]
    rcases List.mem_cons.mp hmem with heq | hmem2
    · have hp1 : p.1 = k := by rw [← heq]
      have hp2 : p.2 = W := by rw [← heq]
      have hrest : ∀ q ∈ rest, ¬ q.1 = k := by
        intro q hq hc
        exact hnd.1 (hp1 ▸ hc ▸ List.mem_map_of_mem Prod.fst hq)
      rw [filter_blocks_none rest k hrest]
      rw [show (List.filter (fun q => decide (q.1 = some k))
          (p.2.map fun l => (some p.1, l))) = p.2.map fun l => (some p.1, l) by
        refine List.filter_eq_self.mpr ?_
        intro q hq
        obtain ⟨l, _, hql⟩ := List.mem_map.mp hq
        rw [← hql]
        simp [hp1]]
      simp [hp2]
    · have hp1 : ¬ p.1 = k := by
        intro hc
        exact hnd.1 (hc ▸ List.mem_map_of_mem Prod.fst hmem2)
      rw [show (List.filter (fun q => decide (q.1 = some k))
          (p.2.map fun l => (some p.1, l))) = [] by
        refine List.filter_eq_nil_iff.mpr ?_
        intro q hq
        obtain ⟨l, _, hql⟩ := List.mem_map.mp hq
        rw [← hql]
        simp only [decide_eq_true_eq]
        intro hc
        exact hp1 (Option.some.inj hc)]
      rw [List.map_nil, List.nil_append]
      exact ih hmem2 hnd.2

theorem recognize_header (headers : List Str) (h : Str) (hfix : strip h = h)
    (hmem : h ∈ headers) : recognize headers (h ++ [':']) = some h := by
  unfold recognize
  dsimp only
  rw [strip_colon h hfix]
  have hend : endsColon (h ++ [':']) = true := by
    unfold endsColon
    rw [List.getLast?_concat]
    simp
  rw [if_pos hend, List.dropLast_concat, hfix, if_pos hmem]

theorem recognize_nil (headers : List Str) : recognize headers [] = none := rfl

theorem strip_intercalate_bodyLines (b : Str) (hb : strip b = b) :
    strip (List.intercalate ['\n'] (bodyLines b ++ [[]])) = b := by
  by_cases h : b = []
  · subst h
    rw [show bodyLines [] = [[]] from rfl]
    decide
  · rw [show bodyLines b = splitNl b by simp [bodyLines, h]]
    have hsplit : splitNl b ≠ [] := by
      rw [ne_eq, splitNl, splitNlAux_eq_nil_iff]
      exact fun hp => h hp.1
    rw [intercalate_append_ne '\n' _ _ hsplit (by simp),
        show List.intercalate ['\n'] [[]] = ([] : Str) from rfl]
    have hlast : b.getLast? ≠ some '\n' := by
      intro hc
      have h2 := strip_getLast_not_space b '\n' (by rw [hb]; exact hc)
      exact absurd h2 (by decide)
    rw [intercalate_splitNl b hlast,
        show b ++ '\n' :: ([] : Str) = b ++ ['\n'] from rfl,
        strip_append_ws b ['\n'] (by
          intro c hc
          rw [List.mem_singleton] at hc
          subst hc
          decide)]
    exact hb

theorem strip_intercalate_splitNl (b : Str) (hb : strip b = b) :
    strip (List.intercalate ['\n'] (splitNl b)) = b := by
  by_cases h : b = []
  · subst h; rfl
  · have hlast : b.getLast? ≠ some '\n' := by
      intro hc
      have h2 := strip_getLast_not_space b '\n' (by rw [hb]; exact hc)
      exact absurd h2 (by decide)
    rw [intercalate_splitNl b hlast]
    exact hb

theorem block_intercalate_eq (h b : Str) (hb : strip b = b) :
    List.intercalate ['\n'] [h ++ [':'], b, []] =
      List.intercalate ['\n'] ((h ++ [':']) :: (bodyLines b ++ [[]])) := by
  by_cases hbe : b = []
  · subst hbe
    rfl
  · rw [show bodyLines b = splitNl b by simp [bodyLines, hbe]]
    have hsplit : splitNl b ≠ [] := by
      rw [ne_eq, splitNl, splitNlAux_eq_nil_iff]
      exact fun hp => hbe hp.1
    have hlast : b.getLast? ≠ some '\n' := by
      intro hc
      have h2 := strip_getLast_not_space b '\n' (by rw [hb]; exact hc)
      exact absurd h2 (by decide)
    rw [intercalate_cons_ne '\n' (h ++ [':']) [b, []] (by simp),
        intercalate_cons_ne '\n' (h ++ [':']) (splitNl b ++ [[]]) (by simp [hsplit]),
        intercalate_cons_ne '\n' b [[]] (by simp),
        intercalate_append_ne '\n' _ _ hsplit (by simp),
        intercalate_splitNl b hlast]

/-- C1 counterexample: headers `A`, `B` with section `A` containing the
line ` B: ` — not equal to any `header:` line, so the claim's hypothesis
holds — yet the splitter recognises the trimmed ` B: ` as opening section
`B`, so splitting the joined text does not reproduce the trimmed
mapping. -/
theorem c1_counterexample :
    (¬ c1Headers.isEmpty = true) ∧
    (∀ p ∈ c1Sections, ∀ ln ∈ splitlines p.2, ∀ h ∈ c1Headers, ¬ ln = h ++ [':']) ∧
    ¬ split_by_headers (join_sections c1Sections c1Headers) c1Headers =
      .ok (c1Headers.map fun h => (h, strip (lookupD c1Sections h))) := by
  decide

/-- C1 (amended): the round-trip law holds under the recognition rule the
code actually uses.  For non-empty, duplicate-free, trim-fixed and
line-break-free headers, if no line of any trimmed section body is
*recognised* as a header line (its trim ends with a colon and the trimmed
pre-colon part is a header — mere inequality with `header:` is not
enough; bodies must also use only `\n` line breaks), then splitting the
joined text maps every header to its trimmed body. -/
theorem c1_round_trip (sections : List (Str × Str)) (headers : List Str)
    (hne : headers ≠ [])
    (hnd : headers.Nodup)
    (hfix : ∀ h ∈ headers, strip h = h)
    (hnb : ∀ h ∈ headers, ∀ c ∈ h, isBreak c = false)
    (hbody : ∀ h ∈ headers, nlOnly (strip (lookupD sections h)))
    (hnorec : ∀ h ∈ headers, ∀ l ∈ splitNl (strip (lookupD sections h)),
      recognize headers l = none) :
    split_by_headers (join_sections sections headers) headers =
      .ok (headers.map fun h => (h, strip (lookupD sections h))) := by
  obtain ⟨I, hN, hsplit⟩ : ∃ I hN, headers = I ++ [hN] :=
    ⟨headers.dropLast, headers.getLast hne, (List.dropLast_append_getLast hne).symm⟩
  have hmemN : hN ∈ headers := by rw [hsplit]; simp
  set blocks : List (Str × List Str) :=
    I.map (fun h => (h, bodyLines (strip (lookupD sections h)) ++ [[]])) ++
      [(hN, splitNl (strip (lookupD sections hN)))] with hblocks
  set M : List Str := blocks.flatMap fun p => (p.1 ++ [':']) :: p.2 with hM
  have hblockmem : ∀ p ∈ blocks, p.1 ∈ headers ∧
      (p.2 = bodyLines (strip (lookupD sections p.1)) ++ [[]] ∨
       p.2 = splitNl (strip (lookupD sections p.1))) := by
    intro p hp
    rw [hblocks] at hp
    rcases List.mem_append.mp hp with hp1 | hp2
    · obtain ⟨h, hhI, hph⟩ := List.mem_map.mp hp1
      rw [← hph]
      exact ⟨by rw [hsplit]; exact List.mem_append_left _ hhI, Or.inl rfl⟩
    · rw [List.mem_singleton] at hp2
      rw [hp2]
      exact ⟨hmemN, Or.inr rfl⟩
  have hA : join_sections sections headers =
      strip (List.intercalate ['\n'] (headers.flatMap fun h =>
        (h ++ [':']) :: (bodyLines (strip (lookupD sections h)) ++ [[]]))) := by
    unfold join_sections
    congr 1
    exact intercalate_flatMap_congr '\n' _ _ headers (fun h _ =>
      ⟨by simp, by simp, block_intercalate_eq h _ (strip_idem _)⟩)
  have hBlock : ((hN ++ [':']) ::
      (bodyLines (strip (lookupD sections hN)) ++ [[]])) =
      ((hN ++ [':']) :: splitNl (strip (lookupD sections hN))) ++
        List.replicate (if strip (lookupD sections hN) = [] then 2 else 1) [] := by
    by_cases hbn : strip (lookupD sections hN) = []
    · rw [hbn, if_pos rfl]
      rfl
    · rw [if_neg hbn]
      simp [bodyLines, hbn, List.replicate]
  have hB : (headers.flatMap fun h =>
      (h ++ [':']) :: (bodyLines (strip (lookupD sections h)) ++ [[]])) =
      M ++ List.replicate (if strip (lookupD sections hN) = [] then 2 else 1) [] := by
    rw [hM, hblocks, List.flatMap_append, List.flatMap_map]
    rw [hsplit, List.flatMap_append]
    simp only [List.flatMap_cons, List.flatMap_nil, List.append_nil]
    rw [hBlock, List.append_assoc]
  obtain ⟨a0, M0, hMc, ha0⟩ : ∃ a0 M0, M = (a0 ++ [':']) :: M0 ∧ a0 ∈ headers := by
    rw [hM, hblocks]
    cases I with
    | nil =>
      exact ⟨hN, splitNl (strip (lookupD sections hN)), by simp, hmemN⟩
    | cons h0 t =>
      refine ⟨h0, (bodyLines (strip (lookupD sections h0)) ++ [[]]) ++
        ((t.map (fun h => (h, bodyLines (strip (lookupD sections h)) ++ [[]])) ++
          [(hN, splitNl (strip (lookupD sections hN)))]).flatMap
            fun p => (p.1 ++ [':']) :: p.2), ?_, by rw [hsplit]; simp⟩
      simp [List.flatMap_cons]
  have ha0fix : strip a0 = a0 := hfix a0 ha0
  have ha0head : ∀ c, (a0 ++ [':']).head? = some c → isSpace c = false := by
    intro c hc
    cases a0 with
    | nil =>
      simp at hc
      subst hc
      decide
    | cons d r =>
      simp at hc
      subst hc
      exact strip_head_not_space _ d (by rw [ha0fix]; rfl)
  have hMlast : ∃ l, M.getLast? = some l ∧ l ≠ [] ∧
      ∀ c, l.getLast? = some c → isSpace c = false := by
    have hdec : M = ((I.map (fun h =>
        (h, bodyLines (strip (lookupD sections h)) ++ [[]]))).flatMap
          fun p => (p.1 ++ [':']) :: p.2) ++
        ((hN ++ [':']) :: splitNl (strip (lookupD sections hN))) := by
      rw [hM, hblocks, List.flatMap_append]
      simp [List.flatMap_cons]
    rw [hdec, List.getLast?_append_of_ne_nil _ (List.cons_ne_nil _ _)]
    by_cases hbn : strip (lookupD sections hN) = []
    · rw [hbn]
      refine ⟨hN ++ [':'], by simp [splitNl, splitNlAux], by simp, ?_⟩
      intro c hc
      rw [List.getLast?_concat] at hc
      injection hc with hc
      subst hc
      decide
    · have hlastN : (strip (lookupD sections hN)).getLast? ≠ some '\n' := by
        intro hc
        have h2 := strip_getLast_not_space (lookupD sections hN) '\n' hc
        exact absurd h2 (by decide)
      obtain ⟨l, h1, h2, h3⟩ := splitNl_getLast _ hbn hlastN
      have hWN : splitNl (strip (lookupD sections hN)) ≠ [] := by
        rw [ne_eq, splitNl, splitNlAux_eq_nil_iff]
        exact fun hp => hbn hp.1
      refine ⟨l, ?_, h2, ?_⟩
      · rw [show (hN ++ [':']) :: splitNl (strip (lookupD sections hN)) =
          [hN ++ [':']] ++ splitNl (strip (lookupD sections hN)) from rfl,
          List.getLast?_append_of_ne_nil _ hWN]
        exact h1
      · intro c hc
        rw [h3] at hc
        exact strip_getLast_not_space (lookupD sections hN) c hc
  have hT : join_sections sections headers = List.intercalate ['\n'] M := by
    rw [hA, hB]
    exact strip_intercalate_core M _ (a0 ++ [':']) M0 hMc (by simp) ha0head hMlast
  have hlinechars : ∀ l ∈ M, ∀ c ∈ l, isBreak c = true → c = '\n' := by
    intro l hl c hc hbrk
    rw [hM] at hl
    obtain ⟨p, hp, hlp⟩ := List.mem_flatMap.mp hl
    obtain ⟨hp1, hp2⟩ := hblockmem p hp
    have hins : ∀ l2 ∈ splitNl (strip (lookupD sections p.1)), ∀ c2 ∈ l2,
        isBreak c2 = true → c2 = '\n' := by
      intro l2 hl2 c2 hc2 hbrk2
      rcases mem_splitNlAux_subset _ [] l2 hl2 c2 hc2 with h3 | h3
      · simp at h3
      · exact hbody p.1 hp1 c2 h3 hbrk2
    rcases List.mem_cons.mp hlp with h | h
    · subst h
      rcases List.mem_append.mp hc with h2 | h2
      · exact absurd hbrk (by rw [hnb p.1 hp1 c h2]; simp)
      · rw [List.mem_singleton] at h2
        subst h2
        exact absurd hbrk (by decide)
    · rcases hp2 with h2 | h2
      · rw [h2] at h
        rcases List.mem_append.mp h with h3 | h3
        · by_cases hbe : strip (lookupD sections p.1) = []
          · rw [hbe, show bodyLines [] = [[]] from rfl, List.mem_singleton] at h3
            subst h3
            simp at hc
          · rw [show bodyLines (strip (lookupD sections p.1)) =
              splitNl (strip (lookupD sections p.1)) by simp [bodyLines, hbe]] at h3
            exact hins l h3 c hc hbrk
        · rw [List.mem_singleton] at h3
          subst h3
          simp at hc
      · rw [h2] at h
        exact hins l h c hc hbrk
  have hlinenl : ∀ l ∈ M, '\n' ∉ l := by
    intro l hl hc
    rw [hM] at hl
    obtain ⟨p, hp, hlp⟩ := List.mem_flatMap.mp hl
    obtain ⟨hp1, hp2⟩ := hblockmem p hp
    have hnonl : ∀ l2 ∈ splitNl (strip (lookupD sections p.1)), '\n' ∉ l2 :=
      mem_splitNlAux_no_nl _ [] (by simp)
    rcases List.mem_cons.mp hlp with h | h
    · subst h
      rcases List.mem_append.mp hc with h2 | h2
      · have hb2 := hnb p.1 hp1 '\n' h2
        exact absurd hb2 (by decide)
      · rw [List.mem_singleton] at h2
        exact absurd h2 (by decide)
    · rcases hp2 with h2 | h2
      · rw [h2] at h
        rcases List.mem_append.mp h with h3 | h3
        · by_cases hbe : strip (lookupD sections p.1) = []
          · rw [hbe, show bodyLines [] = [[]] from rfl, List.mem_singleton] at h3
            subst h3
            simp at hc
          · rw [show bodyLines (strip (lookupD sections p.1)) =
              splitNl (strip (lookupD sections p.1)) by simp [bodyLines, hbe]] at h3
            exact hnonl l h3 hc
        · rw [List.mem_singleton] at h3
          subst h3
          simp at hc
      · rw [h2] at h
        exact hnonl l h hc
  have hMlastne : M.getLast? ≠ some [] := by
    obtain ⟨l, h1, h2, _⟩ := hMlast
    rw [h1]
    intro hc
    exact h2 (Option.some.inj hc)
  have hnlonly : nlOnly (List.intercalate ['\n'] M) := by
    intro c hc hbrk
    rcases mem_intercalate '\n' M c hc with h | ⟨l, hl, hcl⟩
    · exact h
    · exact hlinechars l hl c hcl hbrk
  have hsplitlines : splitlines (List.intercalate ['\n'] M) = M := by
    rw [splitlines_eq_splitNl _ hnlonly]
    exact splitNl_intercalate M (by rw [hMc]; exact List.cons_ne_nil _ _)
      hlinenl hMlastne
  have hrec : ∀ p ∈ blocks, recognize headers (p.1 ++ [':']) = some p.1 :=
    fun p hp => recognize_header headers p.1 (hfix p.1 (hblockmem p hp).1)
      (hblockmem p hp).1
  have hno : ∀ p ∈ blocks, ∀ l ∈ p.2, recognize headers l = none := by
    intro p hp l hl
    obtain ⟨hp1, hp2⟩ := hblockmem p hp
    rcases hp2 with h2 | h2
    · rw [h2] at hl
      rcases List.mem_append.mp hl with h3 | h3
      · by_cases hbe : strip (lookupD sections p.1) = []
        · rw [hbe, show bodyLines [] = [[]] from rfl, List.mem_singleton] at h3
          subst h3
          exact recognize_nil headers
        · rw [show bodyLines (strip (lookupD sections p.1)) =
            splitNl (strip (lookupD sections p.1)) by simp [bodyLines, hbe]] at h3
          exact hnorec p.1 hp1 l h3
      · rw [List.mem_singleton] at h3
        subst h3
        exact recognize_nil headers
    · rw [h2] at hl
      exact hnorec p.1 hp1 l hl
  have hfsts : blocks.map Prod.fst = headers := by
    rw [hblocks, List.map_append, List.map_map, hsplit,
        show (Prod.fst ∘ fun h : Str =>
          (h, bodyLines (strip (lookupD sections h)) ++ [[]])) = id from rfl,
        List.map_id]
    simp
  rw [hT, split_by_headers_closed _ headers hfix]
  simp only [Except.ok.injEq]
  unfold splitSpec
  dsimp only
  rw [map_strip_fixed headers hfix, hsplitlines, pyKeys_nodup_eq headers hnd,
      hM, ownerOfR_blocks (recognize headers) blocks none hrec hno]
  refine List.map_congr_left ?_
  intro k hk
  simp only [Prod.mk.injEq]
  refine ⟨trivial, ?_⟩
  have hfstnd : (blocks.map Prod.fst).Nodup := by rw [hfsts]; exact hnd
  rcases List.mem_append.mp (by rw [← hsplit]; exact hk : k ∈ I ++ [hN]) with hkI | hkN
  · have hmem : (k, bodyLines (strip (lookupD sections k)) ++ [[]]) ∈ blocks := by
      rw [hblocks]
      exact List.mem_append_left _
        (List.mem_map_of_mem (fun h => (h, bodyLines (strip (lookupD sections h)) ++ [[]])) hkI)
    have hf := filter_blocks blocks k _ hmem hfstnd
    rw [show (((blocks.flatMap fun p => p.2.map fun l => (some p.1, l)).filter
        fun p => decide (p.1 = some k)).map fun p => p.2) =
        bodyLines (strip (lookupD sections k)) ++ [[]] from hf]
    exact strip_intercalate_bodyLines _ (strip_idem _)
  · rw [List.mem_singleton] at hkN
    subst hkN
    have hmem : (k, splitNl (strip (lookupD sections k))) ∈ blocks := by
      rw [hblocks]
      exact List.mem_append_right _ (List.mem_singleton.mpr rfl)
    have hf := filter_blocks blocks k _ hmem hfstnd
    rw [show (((blocks.flatMap fun p => p.2.map fun l => (some p.1, l)).filter
        fun p => decide (p.1 = some k)).map fun p => p.2) =
        splitNl (strip (lookupD sections k)) from hf]
    exact strip_intercalate_splitNl _ (strip_idem _)

theorem c1_round_trip_witness :
    split_by_headers (join_sections [(chars "A", chars "x"), (chars "B", chars "y z")]
        c1Headers) c1Headers =
      .ok (c1Headers.map fun h =>
        (h, strip (lookupD [(chars "A", chars "x"), (chars "B", chars "y z")] h))) :=
  c1_round_trip [(chars "A", chars "x"), (chars "B", chars "y z")] c1Headers
    (by decide) (by decide) (by decide) (by decide)
    (by simp only [nlOnly]; decide) (by decide)

theorem c6_error_taxonomy_witness :
    run_pipeline envResearchFail (chars "j") [] [] none [] cfgObjective false
      (fun _ => false) =
      (.error (stepFatal (chars "research")
          (envResearchFail.research (chars "j")
            (pipelineCtx [] [] none [] cfgObjective))),
       ⟨[StepName.research], 1⟩) :=
  (c6_error_taxonomy envResearchFail (chars "j") [] [] none [] cfgObjective false
    (fun _ => false)).1 rfl rfl

end RC
